import Mathlib

/-!
# CHIP-8 interpreter (`chip8.c`): shallow embedding and verified properties

Machine integers are natural numbers with the wrap-around of the C type written
out (`% 256` for `uint8_t`, `% 65536` for `uint16_t`, `% 2^32` for `uint32_t`).
Arrays are functions from the index to the element; every array access of the C
code is guarded by the array's length, and an access outside the array (which is
undefined behaviour in C, the program has no check of its own) ends the
embedded function with `Except.error` naming the access.
-/

namespace Chip8

/-! ## Data model (`chip8.c` lines 14-53) -/

/-- Display configuration `config_t`; the colours, the scale factor and the
outline switch are only read by the SDL rendering. -/
structure config_t where
  window_width : Nat
  window_height : Nat
  fg_color : Nat
  bg_color : Nat
  scale_factor : Nat
  draw_pixel_outline : Bool

/-- Run state `emulator_state_t`. -/
inductive emulator_state_t where
  | QUIT
  | RUNNING
  | PAUSED
  deriving DecidableEq, Repr

/-- Decoded instruction `instr_t`. -/
structure instr_t where
  opcode : Nat
  NNN : Nat
  NN : Nat
  N : Nat
  X : Nat
  Y : Nat
  deriving DecidableEq, Repr

/-- Machine `chip8_t`. `stack_ptr` is the index of the slot of `stack` the C
pointer points to (`stack_ptr - stack`); `rom_name` is only printed and is left
out. -/
structure chip8_t where
  state : emulator_state_t
  ram : Nat → Nat
  display : Nat → Bool
  pc : Nat
  stack : Nat → Nat
  stack_ptr : Nat
  V : Nat → Nat
  I : Nat
  delay_timer : Nat
  sound_timer : Nat
  keypad : Nat → Bool
  instr : instr_t

/-- An operation of the C code whose behaviour is undefined: an array access
outside the array, a pointer moved below the array, a remainder by zero. The C
code performs the operation; it has no error path of its own. -/
inductive Undefined where
  | ram_index (addr : Nat)
  | display_index (idx : Nat)
  | stack_index (idx : Int)
  | keypad_index (idx : Nat)
  | mod_zero
  deriving DecidableEq, Repr

/-- Lengths of the arrays of `chip8_t`. -/
def RAM_SIZE : Nat := 4096
def DISPLAY_SIZE : Nat := 64 * 32
def STACK_SIZE : Nat := 12
def KEYPAD_SIZE : Nat := 16

/-- Array store `a[i] = v`. -/
def store {α : Type} (a : Nat → α) (i : Nat) (v : α) : Nat → α :=
  fun k => if k = i then v else a k

/-- Conversion of a C `int` value to `uint8_t`. -/
def to_u8 (z : Int) : Nat := (z % 256).toNat

/-- Conversion of a C `int` value to `uint16_t`. -/
def to_u16 (z : Int) : Nat := (z % 65536).toNat

/-- Defaults of `set_config_from_args` (lines 88-95). -/
def default_config : config_t :=
  { window_width := 64, window_height := 32, fg_color := 0xFFFFFFFF,
    bg_color := 0x00000000, scale_factor := 20, draw_pixel_outline := false }

/-! ## `init_chip8` (lines 109-165) -/

/-- Font table `font` of `init_chip8`. -/
def font : List Nat :=
  [0xF0, 0x90, 0x90, 0x90, 0xF0,
   0x20, 0x60, 0x20, 0x20, 0x70,
   0xF0, 0x10, 0xF0, 0x80, 0xF0,
   0xF0, 0x10, 0xF0, 0x10, 0xF0,
   0x90, 0x90, 0xF0, 0x10, 0x10,
   0xF0, 0x80, 0xF0, 0x10, 0xF0,
   0xF0, 0x80, 0xF0, 0x90, 0xF0,
   0xF0, 0x10, 0x20, 0x40, 0x40,
   0xF0, 0x90, 0xF0, 0x90, 0xF0,
   0xF0, 0x90, 0xF0, 0x10, 0xF0,
   0xF0, 0x90, 0xF0, 0x90, 0x90,
   0xE0, 0x90, 0xE0, 0x90, 0xE0,
   0xF0, 0x80, 0x80, 0x80, 0xF0,
   0xE0, 0x90, 0x90, 0x90, 0xE0,
   0xF0, 0x80, 0xF0, 0x80, 0xF0,
   0xF0, 0x80, 0xF0, 0x80, 0x80]

/-- Reasons for which `init_chip8` leaves the process with `exit(1)`. -/
inductive init_exit where
  | rom_invalid
  | rom_too_large
  | rom_not_read
  deriving DecidableEq, Repr

/-- Copy `memcpy(&ram[base], src, len src)`. -/
def memcpy (ram : Nat → Nat) (base : Nat) (src : List Nat) : Nat → Nat :=
  fun a => if base ≤ a ∧ a < base + src.length then src.getD (a - base) 0 else ram a

/-- Model of `init_chip8`: `rom` is the content of the file `rom_name`, `none` when
`fopen` fails. `fread(&ram[entry_point], rom_size, 1, rom)` reads one item of
`rom_size` bytes and returns the number of items read, which is 0 for
`rom_size = 0`. -/
def init_chip8 (chip8 : chip8_t) (rom : Option (List Nat)) : Except init_exit chip8_t :=
  let entry_point := 0x200
  let ram1 := memcpy chip8.ram 0 font
  match rom with
  | none => .error .rom_invalid
  | some bytes =>
    let rom_size := bytes.length
    let max_size := RAM_SIZE - entry_point
    if rom_size > max_size then .error .rom_too_large
    else if rom_size = 0 then .error .rom_not_read
    else
      .ok { chip8 with
            ram := memcpy ram1 entry_point bytes
            state := .RUNNING
            pc := entry_point
            stack_ptr := 0 }

/-- Zero-initialised machine `chip8_t chip8 = {0}` of `main` (the enum value 0 is
`QUIT`; the null `stack_ptr` is replaced by `init_chip8` before any use). -/
def chip8_zero : chip8_t :=
  { state := .QUIT, ram := fun _ => 0, display := fun _ => false, pc := 0,
    stack := fun _ => 0, stack_ptr := 0, V := fun _ => 0, I := 0,
    delay_timer := 0, sound_timer := 0, keypad := fun _ => false,
    instr := { opcode := 0, NNN := 0, NN := 0, N := 0, X := 0, Y := 0 } }

/-! ## `emulate_instr` (lines 297-520) -/

/-- Fetch, line 298: `ram[pc] << 8 | ram[pc + 1]` stored in the 16-bit `opcode`. -/
def fetch (chip8 : chip8_t) : Except Undefined Nat :=
  if chip8.pc < RAM_SIZE then
    if chip8.pc + 1 < RAM_SIZE then
      .ok (((chip8.ram chip8.pc <<< 8) ||| chip8.ram (chip8.pc + 1)) % 65536)
    else .error (.ram_index (chip8.pc + 1))
  else .error (.ram_index chip8.pc)

/-- Field extraction, lines 302-306. -/
def decode (opcode : Nat) : instr_t :=
  { opcode := opcode
    NNN := (opcode &&& 0x0FFF) % 65536
    NN := (opcode &&& 0x0FF) % 256
    N := (opcode &&& 0x0F) % 256
    X := ((opcode >>> 8) &&& 0x0F) % 256
    Y := ((opcode >>> 4) &&& 0x0F) % 256 }

/-- Skip `pc += 2` on the 16-bit program counter. -/
def skip (chip8 : chip8_t) : chip8_t :=
  { chip8 with pc := (chip8.pc + 2) % 65536 }

/-- Body of `case 0x09` (lines 408-414), also reached by falling out of
`case 0x08`, which has no `break` after its inner switch. -/
def case_0x09 (chip8 : chip8_t) : chip8_t :=
  if chip8.instr.N ≠ 0 then chip8
  else if chip8.V chip8.instr.X ≠ chip8.V chip8.instr.Y then skip chip8
  else chip8

/-- Inner switch of `case 0x08` (lines 358-405). -/
def alu (chip8 : chip8_t) : chip8_t :=
  let X := chip8.instr.X
  let Y := chip8.instr.Y
  match chip8.instr.N with
  | 0 => { chip8 with V := store chip8.V X (chip8.V Y) }
  | 1 => { chip8 with V := store chip8.V X ((chip8.V X ||| chip8.V Y) % 256) }
  | 2 => { chip8 with V := store chip8.V X ((chip8.V X &&& chip8.V Y) % 256) }
  | 3 => { chip8 with V := store chip8.V X ((chip8.V X ^^^ chip8.V Y) % 256) }
  | 4 =>
    let V1 := if chip8.V X + chip8.V Y > 255 then store chip8.V 0x0F 1
              else store chip8.V 0x0F 0
    { chip8 with V := store V1 X ((V1 X + V1 Y) % 256) }
  | 5 =>
    let V1 := if chip8.V Y > chip8.V X then store chip8.V 0x0F 0
              else store chip8.V 0x0F 1
    { chip8 with V := store V1 X (to_u8 ((V1 X : Int) - (V1 Y : Int))) }
  | 6 =>
    let V1 := store chip8.V 0x0F (chip8.V X &&& 0x01)
    { chip8 with V := store V1 X ((V1 X >>> 1) % 256) }
  | 7 =>
    let V1 := if chip8.V X > chip8.V Y then store chip8.V 0x0F 0
              else store chip8.V 0x0F 1
    { chip8 with V := store V1 X (to_u8 ((V1 Y : Int) - (V1 X : Int))) }
  | 0xE =>
    let V1 := store chip8.V 0x0F ((chip8.V X &&& 0x80) >>> 7)
    { chip8 with V := store V1 X ((V1 X <<< 1) % 256) }
  | _ => chip8

/-- Inner loop of `case 0x0D` (lines 436-445): `n` is the number of iterations
left, the bit drawn is `j = n - 1`; `x` is the `uint8_t` column. -/
def draw_bits (config : config_t) (sprite_data y : Nat) :
    Nat → Nat → chip8_t → Except Undefined chip8_t
  | 0, _, chip8 => .ok chip8
  | j + 1, x, chip8 =>
    let idx := (y * config.window_width + x) % 4294967296
    let bit := (sprite_data >>> j) &&& 0x01
    if idx < DISPLAY_SIZE then
      let c1 := if bit ≠ 0 ∧ chip8.display idx = true
                then { chip8 with V := store chip8.V 0x0F 1 } else chip8
      let c2 := { c1 with display := store c1.display idx (xor (c1.display idx) (decide (bit ≠ 0))) }
      let x1 := (x + 1) % 256
      if x1 > config.window_width then .ok c2
      else draw_bits config sprite_data y j x1 c2
    else .error (.display_index idx)

/-- Outer loop of `case 0x0D` (lines 433-449): `n` is the number of rows left,
`i` the row counter, `y` the `uint8_t` row. -/
def draw_rows (config : config_t) (original_x : Nat) :
    Nat → Nat → Nat → chip8_t → Except Undefined chip8_t
  | 0, _, _, chip8 => .ok chip8
  | n + 1, i, y, chip8 =>
    if chip8.I + i < RAM_SIZE then
      let sprite_data := chip8.ram (chip8.I + i)
      match draw_bits config sprite_data y 8 original_x chip8 with
      | .error e => .error e
      | .ok c1 =>
        let y1 := (y + 1) % 256
        if y1 > config.window_height then .ok c1
        else draw_rows config original_x n (i + 1) y1 c1
    else .error (.ram_index (chip8.I + i))

/-- Body of `case 0x0D` (lines 428-450). -/
def draw (config : config_t) (chip8 : chip8_t) : Except Undefined chip8_t :=
  if config.window_width = 0 ∨ config.window_height = 0 then .error .mod_zero
  else
    let x := (chip8.V chip8.instr.X % config.window_width) % 256
    let y := (chip8.V chip8.instr.Y % config.window_height) % 256
    let original_x := x
    let c1 := { chip8 with V := store chip8.V 0x0F 0 }
    draw_rows config original_x chip8.instr.N 0 y c1

/-- Key scan of `FX0A` (lines 472-478): `n` keys left, `i` the key tested.
Returns the machine and `key_pressed`. -/
def wait_key : Nat → Nat → chip8_t → chip8_t × Bool
  | 0, _, chip8 => (chip8, false)
  | n + 1, i, chip8 =>
    if chip8.keypad i = true then
      ({ chip8 with V := store chip8.V chip8.instr.X (if chip8.keypad i then 1 else 0) }, true)
    else wait_key n (i + 1) chip8

/-- Switch of `emulate_instr` on `opcode >> 12` (lines 308-519), run on the
machine whose `pc` and `instr` are already updated. `rand_value` is the value the
call `rand()` returns. -/
def execute (rand_value : Nat) (config : config_t) (chip8 : chip8_t) :
    Except Undefined chip8_t :=
  match chip8.instr.opcode >>> 12 with
  | 0x00 =>
    if chip8.instr.NN = 0xE0 then
      .ok { chip8 with display := fun _ => false }
    else if chip8.instr.NN = 0xEE then
      if chip8.stack_ptr = 0 then .error (.stack_index (-1))
      else if chip8.stack_ptr - 1 < STACK_SIZE then
        .ok { chip8 with stack_ptr := chip8.stack_ptr - 1
                         pc := chip8.stack (chip8.stack_ptr - 1) }
      else .error (.stack_index (chip8.stack_ptr - 1 : Nat))
    else .ok chip8
  | 0x01 => .ok { chip8 with pc := chip8.instr.NNN }
  | 0x02 =>
    if chip8.stack_ptr < STACK_SIZE then
      .ok { chip8 with stack := store chip8.stack chip8.stack_ptr chip8.pc
                       stack_ptr := chip8.stack_ptr + 1
                       pc := chip8.instr.NNN }
    else .error (.stack_index chip8.stack_ptr)
  | 0x03 => .ok (if chip8.V chip8.instr.X = chip8.instr.NN then skip chip8 else chip8)
  | 0x04 => .ok (if chip8.V chip8.instr.X ≠ chip8.instr.NN then skip chip8 else chip8)
  | 0x05 =>
    if chip8.instr.N ≠ 0 then .ok chip8
    else .ok (if chip8.V chip8.instr.X = chip8.V chip8.instr.Y then skip chip8 else chip8)
  | 0x06 => .ok { chip8 with V := store chip8.V chip8.instr.X chip8.instr.NN }
  | 0x07 => .ok { chip8 with V := store chip8.V chip8.instr.X ((chip8.V chip8.instr.X + chip8.instr.NN) % 256) }
  | 0x08 => .ok (case_0x09 (alu chip8))
  | 0x09 => .ok (case_0x09 chip8)
  | 0x0A => .ok { chip8 with I := chip8.instr.NNN }
  | 0x0B => .ok { chip8 with pc := (chip8.V 0 + chip8.instr.NNN) % 65536 }
  | 0x0C => .ok { chip8 with V := store chip8.V chip8.instr.X ((chip8.instr.NN &&& (rand_value % 256)) % 256) }
  | 0x0D => draw config chip8
  | 0x0E =>
    if chip8.instr.NN = 0x9E then
      if chip8.V chip8.instr.X < KEYPAD_SIZE then
        .ok (if chip8.keypad (chip8.V chip8.instr.X) = true then skip chip8 else chip8)
      else .error (.keypad_index (chip8.V chip8.instr.X))
    else if chip8.instr.NN = 0xA1 then
      if chip8.V chip8.instr.X < KEYPAD_SIZE then
        .ok (if chip8.keypad (chip8.V chip8.instr.X) = false then skip chip8 else chip8)
      else .error (.keypad_index (chip8.V chip8.instr.X))
    else .ok chip8
  | 0x0F =>
    match chip8.instr.NN with
    | 0x07 => .ok { chip8 with V := store chip8.V chip8.instr.X chip8.delay_timer }
    | 0x0A =>
      if (wait_key KEYPAD_SIZE 0 chip8).2 = false then
        .ok { (wait_key KEYPAD_SIZE 0 chip8).1 with
              pc := to_u16 (((wait_key KEYPAD_SIZE 0 chip8).1.pc : Int) - 2) }
      else .ok (wait_key KEYPAD_SIZE 0 chip8).1
    | 0x15 => .ok { chip8 with delay_timer := chip8.V chip8.instr.X }
    | 0x18 => .ok { chip8 with sound_timer := chip8.V chip8.instr.X }
    | 0x1E => .ok { chip8 with I := (chip8.I + chip8.V chip8.instr.X) % 65536 }
    | 0x29 => .ok { chip8 with I := (chip8.V chip8.instr.X * 5) % 65536 }
    | 0x33 => .ok chip8
    | 0x55 => .ok chip8
    | 0x65 => .ok chip8
    | _ => .ok chip8
  | _ => .ok chip8

/-- The function `emulate_instr`: fetch (line 298), `pc += 2` (line 300), decode
(lines 302-306), switch (lines 308-519). -/
def emulate_instr (rand_value : Nat) (config : config_t) (chip8 : chip8_t) :
    Except Undefined chip8_t :=
  match fetch chip8 with
  | .error e => .error e
  | .ok opcode =>
    execute rand_value config
      { chip8 with pc := (chip8.pc + 2) % 65536, instr := decode opcode }

/-! ## `handle_input` (lines 217-295) and the loop of `main` (lines 559-578) -/

/-- Key symbols `event.key.keysym.sym` that `handle_input` distinguishes. -/
inductive SDL_Keycode where
  | SDLK_ESCAPE | SDLK_SPACE
  | SDLK_1 | SDLK_2 | SDLK_3 | SDLK_4
  | SDLK_q | SDLK_w | SDLK_e | SDLK_r
  | SDLK_a | SDLK_s | SDLK_d | SDLK_f
  | SDLK_z | SDLK_x | SDLK_c | SDLK_v
  | other
  deriving DecidableEq, Repr

/-- Events `event.type` that `handle_input` distinguishes. -/
inductive SDL_Event where
  | SDL_QUIT
  | SDL_KEYDOWN (sym : SDL_Keycode)
  | SDL_KEYUP (sym : SDL_Keycode)
  | other
  deriving DecidableEq, Repr

/-- Keypad slot of a key symbol (lines 240-258 and 267-285). -/
def key_index : SDL_Keycode → Option Nat
  | .SDLK_1 => some 0x1
  | .SDLK_2 => some 0x2
  | .SDLK_3 => some 0x3
  | .SDLK_4 => some 0xC
  | .SDLK_q => some 0x4
  | .SDLK_w => some 0x5
  | .SDLK_e => some 0x6
  | .SDLK_r => some 0xD
  | .SDLK_a => some 0x7
  | .SDLK_s => some 0x8
  | .SDLK_d => some 0x9
  | .SDLK_f => some 0xE
  | .SDLK_z => some 0xA
  | .SDLK_x => some 0x0
  | .SDLK_c => some 0xB
  | .SDLK_v => some 0xF
  | _ => none

/-- Assignment `keypad[k] = value` for the key symbol `sym`, nothing for a symbol
without a slot (`default: break`). -/
def set_key (chip8 : chip8_t) (sym : SDL_Keycode) (value : Bool) : chip8_t :=
  match key_index sym with
  | some k => { chip8 with keypad := store chip8.keypad k value }
  | none => chip8

/-- The function `handle_input`: `queue` is the SDL event queue, polled until it
is empty or a quit, escape or space event makes the function return; the result is
the machine and the events left in the queue. -/
def handle_input : chip8_t → List SDL_Event → chip8_t × List SDL_Event
  | chip8, [] => (chip8, [])
  | chip8, .SDL_QUIT :: queue => ({ chip8 with state := .QUIT }, queue)
  | chip8, .SDL_KEYDOWN .SDLK_ESCAPE :: queue => ({ chip8 with state := .QUIT }, queue)
  | chip8, .SDL_KEYDOWN .SDLK_SPACE :: queue =>
    (if chip8.state = .RUNNING then { chip8 with state := .PAUSED }
     else { chip8 with state := .RUNNING }, queue)
  | chip8, .SDL_KEYDOWN sym :: queue => handle_input (set_key chip8 sym true) queue
  | chip8, .SDL_KEYUP sym :: queue => handle_input (set_key chip8 sym false) queue
  | chip8, .other :: queue => handle_input chip8 queue

/-- One iteration of the loop of `main` (lines 560-578): `handle_input`, `continue`
when paused, `emulate_instr`; `SDL_Delay` and `update_screen` do not write the
machine. -/
def main_iteration (rand_value : Nat) (config : config_t) (chip8 : chip8_t)
    (queue : List SDL_Event) : Except Undefined (chip8_t × List SDL_Event) :=
  if (handle_input chip8 queue).1.state = .PAUSED then .ok (handle_input chip8 queue)
  else
    match emulate_instr rand_value config (handle_input chip8 queue).1 with
    | .error e => .error e
    | .ok c2 => .ok (c2, (handle_input chip8 queue).2)

/-- The loop `while(chip8.state != QUIT)` of `main` for at most `n` iterations;
`arrivals k` are the events that arrive in the queue before iteration `k`. -/
def main_loop (rand_values : Nat → Nat) (config : config_t)
    (arrivals : Nat → List SDL_Event) :
    Nat → chip8_t → List SDL_Event → Except Undefined (chip8_t × List SDL_Event)
  | 0, chip8, queue => .ok (chip8, queue)
  | n + 1, chip8, queue =>
    match main_loop rand_values config arrivals n chip8 queue with
    | .error e => .error e
    | .ok p =>
      if p.1.state = .QUIT then .ok p
      else main_iteration (rand_values n) config p.1 (p.2 ++ arrivals n)

/-! ## Machines used in the statements -/

/-- Machine `init_chip8` leaves when it returns. -/
def loaded (c : chip8_t) (bytes : List Nat) : chip8_t :=
  { c with ram := memcpy (memcpy c.ram 0 font) 0x200 bytes
           state := .RUNNING, pc := 0x200, stack_ptr := 0 }

/-- Machine with the word `D123` at `pc = 0x200`. -/
def machine_D123 : chip8_t :=
  { chip8_zero with
    pc := 0x200
    ram := fun a => if a = 0x200 then 0xD1 else if a = 0x201 then 0x23 else 0 }

/-- Machine on which the switch runs after the fetch of `w`: `pc` advanced by 2,
`instr` decoded. -/
def fetched (s : chip8_t) (w : Nat) : chip8_t :=
  { s with pc := s.pc + 2, instr := decode w }

/-- Word `8XYN`. -/
def op_8XYN (X Y N : Nat) : Nat := 0x8000 + X * 256 + Y * 16 + N

/-- Running machine with the big-endian word `hi lo` at `pc = 0x200` and the
registers `V`; everything else is zero. -/
def machine_word (hi lo : Nat) (V : Nat → Nat) : chip8_t :=
  { chip8_zero with
    state := .RUNNING
    pc := 0x200
    ram := fun a => if a = 0x200 then hi else if a = 0x201 then lo else 0
    V := V }

/-- Registers `V0 = v0`, `VF = vf`, all others zero. -/
def regs_0F (v0 vf : Nat) : Nat → Nat :=
  fun k => if k = 0 then v0 else if k = 0xF then vf else 0

/-- Registers `V1 = a`, `V2 = b`, all others zero. -/
def regs_12 (a b : Nat) : Nat → Nat :=
  fun k => if k = 1 then a else if k = 2 then b else 0

/-- Result of `n` successive calls of `emulate_instr`; the call number `k` (from 0)
gets `rand_values k` as the value of `rand()`. -/
def run (rand_values : Nat → Nat) (config : config_t) :
    Nat → chip8_t → Except Undefined chip8_t
  | 0, chip8 => .ok chip8
  | n + 1, chip8 =>
    match run rand_values config n chip8 with
    | .error e => .error e
    | .ok c1 => emulate_instr (rand_values n) config c1

/-- The RAM of `chip8` holds the big-endian word `w` at the addresses `a`, `a + 1`:
a fetch at `pc = a` yields `w`. -/
def has_word (chip8 : chip8_t) (a w : Nat) : Prop :=
  fetch { chip8 with pc := a } = .ok w

/-- Running machine with a program `prog` given as (address, byte) pairs, the
registers `V`, the index register `I` and the display `display`. -/
def machine_prog (prog : List (Nat × Nat)) (V : Nat → Nat) (I : Nat)
    (display : Nat → Bool) : chip8_t :=
  { chip8_zero with
    state := .RUNNING
    pc := 0x200
    ram := fun a => ((prog.find? (fun p => p.1 == a)).map (fun p => p.2)).getD 0
    V := V
    I := I
    display := display }

/-- Machine about to draw two rows at row 31: `D012` with `V0 = 0`, `V1 = 31`,
sprite bytes `80 80` at `I = 0x300`. -/
def machine_draw_bottom : chip8_t :=
  machine_prog [(0x200, 0xD0), (0x201, 0x12), (0x300, 0x80), (0x301, 0x80)]
    (fun k => if k = 1 then 31 else 0) 0x300 (fun _ => false)

/-- Machine about to draw one row at column 60: `D011` with `V0 = 60`, `V1 = 0`,
sprite byte `FF` at `I = 0x300`. -/
def machine_draw_right : chip8_t :=
  machine_prog [(0x200, 0xD0), (0x201, 0x11), (0x300, 0xFF)]
    (fun k => if k = 0 then 60 else 0) 0x300 (fun _ => false)

/-- Call sites `0x200`, `0x300` and final target `0x400`. -/
def call_sites : Nat → Nat :=
  fun i => if i = 0 then 0x200 else if i = 1 then 0x300 else 0x400

/-- Machine with the program `0x200: 2300`, `0x300: 2400`, `0x302: 00EE`,
`0x400: 00EE`. -/
def machine_nested : chip8_t :=
  machine_prog [(0x200, 0x23), (0x201, 0x00), (0x300, 0x24), (0x301, 0x00),
    (0x302, 0x00), (0x303, 0xEE), (0x400, 0x00), (0x401, 0xEE)]
    (fun _ => 0) 0 (fun _ => false)

/-- Machine with the program `0x200: 2300`, `0x300: 00EE`. -/
def machine_call : chip8_t :=
  machine_prog [(0x200, 0x23), (0x201, 0x00), (0x300, 0x00), (0x301, 0xEE)]
    (fun _ => 0) 0 (fun _ => false)

/-- Machine with 12 return addresses on the stack and the word `2300` at `pc`. -/
def machine_full_stack : chip8_t :=
  { machine_call with stack_ptr := 12, stack := fun _ => 0x202 }

/-- One iteration of the inner loop of `DXYN` at display index `idx` with sprite
bit `j` of `b`: collision flag, then XOR. -/
def plot (c : chip8_t) (b j idx : Nat) : chip8_t :=
  { c with
    V := if b.testBit j = true ∧ c.display idx = true then store c.V 0x0F 1 else c.V
    display := store c.display idx (xor (c.display idx) (b.testBit j)) }

/-- Word `DXYN`. -/
def op_DXYN (X Y N : Nat) : Nat := 0xD000 + X * 256 + Y * 16 + N

/-- Machine with the program `0x200: D011`, `0x202: D011`, the sprite byte `80`
at `I = 0x300`, all registers zero and an all-zero display. -/
def machine_sprite : chip8_t :=
  machine_prog [(0x200, 0xD0), (0x201, 0x11), (0x202, 0xD0), (0x203, 0x11), (0x300, 0x80)]
    (fun _ => 0) 0x300 (fun _ => false)

/-- The machine `s1` differs from `s` at most in `pc` and in the decoded
instruction `instr`: registers, `I`, timers, stack, display, keypad, RAM and run
state are the same. -/
def same_data (s s1 : chip8_t) : Prop :=
  s1.V = s.V ∧ s1.I = s.I ∧ s1.delay_timer = s.delay_timer ∧
  s1.sound_timer = s.sound_timer ∧ s1.stack = s.stack ∧ s1.stack_ptr = s.stack_ptr ∧
  s1.display = s.display ∧ s1.keypad = s.keypad ∧ s1.ram = s.ram ∧ s1.state = s.state

/-- Machine with the word `F00A` at `pc = 0x200`, all registers zero and only the
key `0xA` pressed. -/
def machine_key_A : chip8_t :=
  { machine_word 0xF0 0x0A (fun _ => 0) with keypad := fun k => k == 0xA }

/-- Machine with the word `F00A` at `pc = 0x200`, all registers zero and no key
pressed. -/
def machine_no_key : chip8_t := machine_word 0xF0 0x0A (fun _ => 0)

/-- Machine with the word `F033` at `0x200`, `V0 = 254`, `I = 0x300` and zeros
in the RAM from `0x300`. -/
def machine_bcd : chip8_t :=
  machine_prog [(0x200, 0xF0), (0x201, 0x33)] (fun k => if k = 0 then 254 else 0) 0x300
    (fun _ => false)

/-- Machine with the word `F155` at `0x200`, `V0 = 7`, `V1 = 9`, `I = 0x300` and
zeros in the RAM from `0x300`. -/
def machine_dump : chip8_t :=
  machine_prog [(0x200, 0xF1), (0x201, 0x55)]
    (fun k => if k = 0 then 7 else if k = 1 then 9 else 0) 0x300 (fun _ => false)

/-- Machine with the word `F165` at `0x200`, all registers zero, `I = 0x300` and
the bytes `7 9` in the RAM at `0x300`. -/
def machine_restore : chip8_t :=
  machine_prog [(0x200, 0xF1), (0x201, 0x65), (0x300, 7), (0x301, 9)] (fun _ => 0) 0x300
    (fun _ => false)

/-- Registers `V1 = v1`, `VF = vf`, all others zero. -/
def regs_1F (v1 vf : Nat) : Nat → Nat :=
  fun k => if k = 1 then v1 else if k = 0xF then vf else 0

/-- Machine with the word `01E0` at `0x200` and the pixel 5 of the display set. -/
def machine_01E0 : chip8_t :=
  machine_prog [(0x200, 0x01), (0x201, 0xE0)] (fun _ => 0) 0 (fun p => p == 5)

/-- Machine with the word `01EE` at `0x200` and an empty stack. -/
def machine_01EE : chip8_t :=
  machine_prog [(0x200, 0x01), (0x201, 0xEE)] (fun _ => 0) 0 (fun _ => false)

/-- Machine with the word `6100` at `pc = 0x200`, zeros elsewhere in the RAM,
`delay_timer = 7` and `sound_timer = 9`. -/
def machine_timers : chip8_t :=
  { machine_word 0x61 0x00 (fun _ => 0) with delay_timer := 7, sound_timer := 9 }

/-- Machine with the word `0AE0` at `0x200` and the pixel 100 of the display set. -/
def machine_0AE0 : chip8_t :=
  machine_prog [(0x200, 0x0A), (0x201, 0xE0)] (fun _ => 0) 0 (fun p => p == 100)

/-! # Properties -/

/-! ## Arithmetic of the decoder -/

theorem decode_opcode (w : Nat) : (decode w).opcode = w := rfl

theorem decode_NNN (w : Nat) : (decode w).NNN = w % 4096 := by
  have h := Nat.and_pow_two_sub_one_eq_mod w 12
  norm_num at h
  simp only [decode, h]
  omega

theorem decode_NN (w : Nat) : (decode w).NN = w % 256 := by
  have h := Nat.and_pow_two_sub_one_eq_mod w 8
  norm_num at h
  simp only [decode, h]
  omega

theorem decode_N (w : Nat) : (decode w).N = w % 16 := by
  have h := Nat.and_pow_two_sub_one_eq_mod w 4
  norm_num at h
  simp only [decode, h]
  omega

theorem decode_X (w : Nat) : (decode w).X = w / 256 % 16 := by
  have h := Nat.and_pow_two_sub_one_eq_mod (w >>> 8) 4
  rw [Nat.shiftRight_eq_div_pow] at h
  norm_num at h
  simp only [decode, Nat.shiftRight_eq_div_pow]
  norm_num
  rw [h]
  omega

theorem decode_Y (w : Nat) : (decode w).Y = w / 16 % 16 := by
  have h := Nat.and_pow_two_sub_one_eq_mod (w >>> 4) 4
  rw [Nat.shiftRight_eq_div_pow] at h
  norm_num at h
  simp only [decode, Nat.shiftRight_eq_div_pow]
  norm_num
  rw [h]
  omega

theorem decode_top (w : Nat) : (decode w).opcode >>> 12 = w / 4096 := by
  simp [decode, Nat.shiftRight_eq_div_pow]

theorem fetch_ok {s : chip8_t} {w : Nat} (h : fetch s = .ok w) :
    s.pc + 1 < 4096 ∧ w = ((s.ram s.pc <<< 8) ||| s.ram (s.pc + 1)) % 65536 := by
  unfold fetch RAM_SIZE at h
  split at h
  · split at h
    · injection h with h
      exact ⟨by assumption, h.symm⟩
    · cases h
  · cases h

theorem emulate_instr_of_fetch (r : Nat) (cfg : config_t) {s : chip8_t} {w : Nat}
    (h : fetch s = .ok w) :
    emulate_instr r cfg s = execute r cfg { s with pc := s.pc + 2, instr := decode w } := by
  have hp := (fetch_ok h).1
  have : (s.pc + 2) % 65536 = s.pc + 2 := by omega
  simp only [emulate_instr, h, this]

theorem shl8_or (h b : Nat) (hb : b < 256) : (h <<< 8) ||| b = h * 256 + b := by
  have h1 := Nat.mul_add_lt_is_or (i := 8) (b := b) (by simpa using hb) h
  have h2 : h <<< 8 = 2 ^ 8 * h := by rw [Nat.shiftLeft_eq, Nat.mul_comm]
  rw [h2, ← h1]
  norm_num
  exact Nat.mul_comm _ _

/-! ## Fields no instruction writes -/

theorem skip_frame (c : chip8_t) : (skip c).instr = c.instr ∧ (skip c).state = c.state ∧
    (skip c).ram = c.ram ∧ (skip c).keypad = c.keypad := ⟨rfl, rfl, rfl, rfl⟩

theorem case_0x09_frame (c : chip8_t) : (case_0x09 c).instr = c.instr ∧
    (case_0x09 c).state = c.state ∧ (case_0x09 c).ram = c.ram ∧
    (case_0x09 c).keypad = c.keypad := by
  unfold case_0x09
  split
  · exact ⟨rfl, rfl, rfl, rfl⟩
  · split <;> exact ⟨rfl, rfl, rfl, rfl⟩

theorem alu_frame (c : chip8_t) : (alu c).instr = c.instr ∧
    (alu c).state = c.state ∧ (alu c).ram = c.ram ∧ (alu c).keypad = c.keypad := by
  unfold alu
  split <;> exact ⟨rfl, rfl, rfl, rfl⟩

theorem draw_bits_frame (cfg : config_t) (d y : Nat) :
    ∀ (n x : Nat) (c c1 : chip8_t), draw_bits cfg d y n x c = .ok c1 →
      c1.instr = c.instr ∧ c1.state = c.state ∧ c1.ram = c.ram ∧ c1.keypad = c.keypad ∧
      c1.I = c.I := by
  intro n
  induction n with
  | zero =>
    intro x c c1 h
    simp only [draw_bits] at h
    cases h
    exact ⟨rfl, rfl, rfl, rfl, rfl⟩
  | succ j ih =>
    intro x c c1 h
    simp only [draw_bits] at h
    split at h
    · split at h
      · cases h
        split <;> exact ⟨rfl, rfl, rfl, rfl, rfl⟩
      · have := ih _ _ _ h
        revert this
        split <;> exact id
    · cases h

theorem draw_rows_frame (cfg : config_t) (ox : Nat) :
    ∀ (n i y : Nat) (c c1 : chip8_t), draw_rows cfg ox n i y c = .ok c1 →
      c1.instr = c.instr ∧ c1.state = c.state ∧ c1.ram = c.ram ∧ c1.keypad = c.keypad ∧
      c1.I = c.I := by
  intro n
  induction n with
  | zero =>
    intro i y c c1 h
    simp only [draw_rows] at h
    cases h
    exact ⟨rfl, rfl, rfl, rfl, rfl⟩
  | succ n ih =>
    intro i y c c1 h
    simp only [draw_rows] at h
    split at h
    · split at h
      · cases h
      · rename_i c2 hb
        have h2 := draw_bits_frame cfg _ _ _ _ _ _ hb
        split at h
        · cases h
          exact h2
        · have h3 := ih _ _ _ _ h
          exact ⟨h3.1.trans h2.1, h3.2.1.trans h2.2.1, h3.2.2.1.trans h2.2.2.1,
            h3.2.2.2.1.trans h2.2.2.2.1, h3.2.2.2.2.trans h2.2.2.2.2⟩
    · cases h

theorem draw_frame (cfg : config_t) (c c1 : chip8_t) (h : draw cfg c = .ok c1) :
    c1.instr = c.instr ∧ c1.state = c.state ∧ c1.ram = c.ram ∧ c1.keypad = c.keypad ∧
    c1.I = c.I := by
  unfold draw at h
  split at h
  · cases h
  · have h1 := draw_rows_frame cfg _ _ _ _ _ _ h
    exact h1

theorem wait_key_frame : ∀ (n i : Nat) (c : chip8_t),
    (wait_key n i c).1.instr = c.instr ∧ (wait_key n i c).1.state = c.state ∧
    (wait_key n i c).1.ram = c.ram ∧ (wait_key n i c).1.keypad = c.keypad := by
  intro n
  induction n with
  | zero => intro i c; exact ⟨rfl, rfl, rfl, rfl⟩
  | succ n ih =>
    intro i c
    simp only [wait_key]
    split
    · exact ⟨rfl, rfl, rfl, rfl⟩
    · exact ih _ _

/-- No instruction writes the decoded instruction, the run state, the RAM or the
keypad. -/
theorem execute_frame (r : Nat) (cfg : config_t) (c c1 : chip8_t)
    (h : execute r cfg c = .ok c1) :
    c1.instr = c.instr ∧ c1.state = c.state ∧ c1.ram = c.ram ∧ c1.keypad = c.keypad := by
  unfold execute at h
  split at h
  case h_9 =>
    cases h
    have h1 := case_0x09_frame (alu c)
    have h2 := alu_frame c
    exact ⟨h1.1.trans h2.1, h1.2.1.trans h2.2.1, h1.2.2.1.trans h2.2.2.1,
      h1.2.2.2.trans h2.2.2.2⟩
  case h_10 =>
    cases h
    exact case_0x09_frame c
  case h_14 =>
    have h1 := draw_frame cfg c c1 h
    exact ⟨h1.1, h1.2.1, h1.2.2.1, h1.2.2.2.1⟩
  case h_16 =>
    have hw := wait_key_frame KEYPAD_SIZE 0 c
    repeat' split at h
    all_goals first
      | (cases h; exact ⟨rfl, rfl, rfl, rfl⟩)
      | (cases h; exact hw)
  all_goals repeat' split at h
  all_goals first
    | (cases h; done)
    | (cases h; exact ⟨rfl, rfl, rfl, rfl⟩)

/-! ## Array stores -/

theorem store_same {α : Type} (a : Nat → α) (i : Nat) (v : α) : store a i v i = v := by
  simp [store]

theorem store_other {α : Type} (a : Nat → α) (i k : Nat) (v : α) (h : k ≠ i) :
    store a i v k = a k := by
  simp [store, h]

/-! ## Loading -/

theorem init_chip8_ok (c : chip8_t) (bytes : List Nat) (h0 : 0 < bytes.length)
    (h1 : bytes.length ≤ 3584) : init_chip8 c (some bytes) = .ok (loaded c bytes) := by
  have h2 : ¬ bytes.length > 4096 - 512 := by omega
  have h3 : ¬ bytes.length = 0 := by omega
  unfold init_chip8 loaded RAM_SIZE
  dsimp only
  rw [if_neg h2, if_neg h3]

theorem loaded_ram_rom (c : chip8_t) (bytes : List Nat) (i : Nat) (h : i < bytes.length) :
    (loaded c bytes).ram (0x200 + i) = bytes.getD i 0 := by
  have h1 : 0x200 ≤ 0x200 + i ∧ 0x200 + i < 0x200 + bytes.length := by omega
  have h2 : 0x200 + i - 0x200 = i := by omega
  simp only [loaded, memcpy]
  rw [if_pos h1, h2]

/-! ## One step of the instructions used below -/

/-- Fetch of the big-endian word `hi lo` stored at `pc`. -/
theorem fetch_bytes (s : chip8_t) (hi lo : Nat) (hpc : s.pc + 1 < 4096)
    (h0 : s.ram s.pc = hi) (h1 : s.ram (s.pc + 1) = lo) (hhi : hi < 256) (hlo : lo < 256) :
    fetch s = .ok (hi * 256 + lo) := by
  unfold fetch RAM_SIZE
  have hp : s.pc < 4096 := by omega
  rw [if_pos hp, if_pos hpc, h0, h1, shl8_or hi lo hlo]
  congr 1
  omega

theorem execute_6 (r : Nat) (cfg : config_t) (c : chip8_t) (h : c.instr.opcode >>> 12 = 6) :
    execute r cfg c = .ok { c with V := store c.V c.instr.X c.instr.NN } := by
  unfold execute
  rw [h]

theorem execute_7 (r : Nat) (cfg : config_t) (c : chip8_t) (h : c.instr.opcode >>> 12 = 7) :
    execute r cfg c =
      .ok { c with V := store c.V c.instr.X ((c.V c.instr.X + c.instr.NN) % 256) } := by
  unfold execute
  rw [h]

/-- One step of `6XNN`: `VX = NN`. -/
theorem step_6XNN (r : Nat) (cfg : config_t) (s : chip8_t) (X NN : Nat)
    (hX : X < 16) (hNN : NN < 256) (hf : fetch s = .ok (0x6000 + X * 256 + NN)) :
    emulate_instr r cfg s =
      .ok { s with pc := s.pc + 2, instr := decode (0x6000 + X * 256 + NN),
                   V := store s.V X NN } := by
  rw [emulate_instr_of_fetch r cfg hf, execute_6 _ _ _ (by rw [decode_top]; omega)]
  simp only [decode_X, decode_NN]
  have h1 : (0x6000 + X * 256 + NN) / 256 % 16 = X := by omega
  have h2 : (0x6000 + X * 256 + NN) % 256 = NN := by omega
  rw [h1, h2]

/-- One step of `7XNN`: `VX += NN` on a byte. -/
theorem step_7XNN (r : Nat) (cfg : config_t) (s : chip8_t) (X NN : Nat)
    (hX : X < 16) (hNN : NN < 256) (hf : fetch s = .ok (0x7000 + X * 256 + NN)) :
    emulate_instr r cfg s =
      .ok { s with pc := s.pc + 2, instr := decode (0x7000 + X * 256 + NN),
                   V := store s.V X ((s.V X + NN) % 256) } := by
  rw [emulate_instr_of_fetch r cfg hf, execute_7 _ _ _ (by rw [decode_top]; omega)]
  simp only [decode_X, decode_NN]
  have h1 : (0x7000 + X * 256 + NN) / 256 % 16 = X := by omega
  have h2 : (0x7000 + X * 256 + NN) % 256 = NN := by omega
  rw [h1, h2]

/-! ## Fetching a known word, runs of several steps -/

theorem fetch_congr (s s1 : chip8_t) (hpc : s1.pc = s.pc) (hram : s1.ram = s.ram) :
    fetch s1 = fetch s := by
  unfold fetch
  rw [hpc, hram]

theorem has_word_fetch (s s1 : chip8_t) (a w : Nat) (h : has_word s a w) (hpc : s1.pc = a)
    (hram : s1.ram = s.ram) : fetch s1 = .ok w := by
  rw [← h]
  exact fetch_congr _ _ hpc hram

theorem has_word_lt (s : chip8_t) (a w : Nat) (h : has_word s a w) : a + 1 < 4096 :=
  (fetch_ok h).1

theorem run_succ (rv : Nat → Nat) (cfg : config_t) (n : Nat) (s c1 : chip8_t)
    (h : run rv cfg n s = .ok c1) :
    run rv cfg (n + 1) s = emulate_instr (rv n) cfg c1 := by
  simp only [run, h]


/-! ## C1: decoding -/

/-- C1: for every word `w` the decoded fields are `NNN = w & 0x0FFF`,
`NN = w & 0x00FF`, `N = w & 0x000F`, `X = (w >> 8) & 0xF` and `Y = (w >> 4) & 0xF`,
so that `NNN = X*256 + NN` and `NN = Y*16 + N`; `decode` is a total function of
`w` alone, and whenever `emulate_instr` fetches `w` and returns, the `instr` field
of the machine is `decode w`. -/
theorem C1_decode_fields (w : Nat) :
    (decode w).opcode = w ∧
    (decode w).NNN = w &&& 0x0FFF ∧ (decode w).NN = w &&& 0x00FF ∧
    (decode w).N = w &&& 0x000F ∧
    (decode w).X = (w >>> 8) &&& 0xF ∧ (decode w).Y = (w >>> 4) &&& 0xF ∧
    (decode w).NNN = (decode w).X * 256 + (decode w).NN ∧
    (decode w).NN = (decode w).Y * 16 + (decode w).N ∧
    (∀ (r : Nat) (cfg : config_t) (s s1 : chip8_t),
      fetch s = .ok w → emulate_instr r cfg s = .ok s1 → s1.instr = decode w) := by
  have h12 := Nat.and_pow_two_sub_one_eq_mod w 12
  have h8 := Nat.and_pow_two_sub_one_eq_mod w 8
  have h4 := Nat.and_pow_two_sub_one_eq_mod w 4
  have hX := Nat.and_pow_two_sub_one_eq_mod (w >>> 8) 4
  have hY := Nat.and_pow_two_sub_one_eq_mod (w >>> 4) 4
  norm_num at h12 h8 h4 hX hY
  refine ⟨rfl, ?_, ?_, ?_, ?_, ?_, ?_, ?_, ?_⟩
  · rw [decode_NNN, h12]
  · rw [decode_NN, h8]
  · rw [decode_N, h4]
  · rw [decode_X, hX, Nat.shiftRight_eq_div_pow]
  · rw [decode_Y, hY, Nat.shiftRight_eq_div_pow]
  · rw [decode_NNN, decode_X, decode_NN]
    omega
  · rw [decode_NN, decode_Y, decode_N]
    omega
  · intro r cfg s s1 hf he
    rw [emulate_instr_of_fetch r cfg hf] at he
    exact (execute_frame r cfg _ _ he).1

/-- Witness of C1: the word `0xD123` fetched at `0x200` decodes to `NNN = 0x123`,
`NN = 0x23`, `N = 3`, `X = 1`, `Y = 2`. -/
theorem C1_decode_fields_witness :
    fetch machine_D123 = .ok 0xD123 ∧
    ∃ s1, emulate_instr 0 default_config machine_D123 = .ok s1 ∧
      s1.instr = { opcode := 0xD123, NNN := 0x123, NN := 0x23, N := 3, X := 1, Y := 2 } := by
  refine ⟨rfl, ?_⟩
  cases h : emulate_instr 0 default_config machine_D123 with
  | error e =>
    have h1 : (emulate_instr 0 default_config machine_D123).isOk = true := by decide
    rw [h] at h1
    cases h1
  | ok s1 =>
    refine ⟨s1, rfl, ?_⟩
    rw [(C1_decode_fields 0xD123).2.2.2.2.2.2.2.2 0 default_config machine_D123 s1 rfl h]
    decide

/-! ## C2: load a constant, add a constant -/

/-- C2: for every register index `X` and bytes `a`, `b`, the machine loaded by
`init_chip8` with a program that starts with the words `6Xaa 7Xbb` has
`pc = 0x200`, and two calls of `emulate_instr` leave `VX = (a + b) mod 256` and
`pc = 0x204`, leave `VF` unchanged when `X != 0xF`, and leave every register other
than `VX` unchanged. -/
theorem C2_load_then_add (c : chip8_t) (cfg : config_t) (r1 r2 X a b : Nat) (rest : List Nat)
    (hX : X < 16) (ha : a < 256) (hb : b < 256) (hlen : rest.length + 4 ≤ 3584) :
    ∃ s0 s1 s2,
      init_chip8 c (some ([0x60 + X, a, 0x70 + X, b] ++ rest)) = .ok s0 ∧
      s0.pc = 0x200 ∧ s0.V = c.V ∧
      emulate_instr r1 cfg s0 = .ok s1 ∧ emulate_instr r2 cfg s1 = .ok s2 ∧
      s2.V X = (a + b) % 256 ∧ s2.pc = 0x204 ∧
      (X ≠ 0xF → s2.V 0xF = s0.V 0xF) ∧ (∀ k, k ≠ X → s2.V k = s0.V k) := by
  have hl : ([0x60 + X, a, 0x70 + X, b] ++ rest).length = rest.length + 4 := by simp
  have hinit := init_chip8_ok c ([0x60 + X, a, 0x70 + X, b] ++ rest) (by omega) (by omega)
  have g0 : (loaded c ([0x60 + X, a, 0x70 + X, b] ++ rest)).ram 0x200 = 0x60 + X :=
    loaded_ram_rom c ([0x60 + X, a, 0x70 + X, b] ++ rest) 0 (by omega)
  have g1 : (loaded c ([0x60 + X, a, 0x70 + X, b] ++ rest)).ram 0x201 = a :=
    loaded_ram_rom c ([0x60 + X, a, 0x70 + X, b] ++ rest) 1 (by omega)
  have g2 : (loaded c ([0x60 + X, a, 0x70 + X, b] ++ rest)).ram 0x202 = 0x70 + X :=
    loaded_ram_rom c ([0x60 + X, a, 0x70 + X, b] ++ rest) 2 (by omega)
  have g3 : (loaded c ([0x60 + X, a, 0x70 + X, b] ++ rest)).ram 0x203 = b :=
    loaded_ram_rom c ([0x60 + X, a, 0x70 + X, b] ++ rest) 3 (by omega)
  have hpc : (loaded c ([0x60 + X, a, 0x70 + X, b] ++ rest)).pc = 0x200 := rfl
  have hV : (loaded c ([0x60 + X, a, 0x70 + X, b] ++ rest)).V = c.V := rfl
  generalize loaded c ([0x60 + X, a, 0x70 + X, b] ++ rest) = s0 at hinit g0 g1 g2 g3 hpc hV
  have hf1 : fetch s0 = .ok (0x6000 + X * 256 + a) := by
    have := fetch_bytes s0 (0x60 + X) a (by omega) (by rw [hpc]; exact g0)
      (by rw [hpc]; exact g1) (by omega) ha
    rw [this]
    congr 1
    omega
  have e1 := step_6XNN r1 cfg s0 X a hX ha hf1
  generalize hs1 : ({ s0 with pc := s0.pc + 2, instr := decode (0x6000 + X * 256 + a),
                              V := store s0.V X a } : chip8_t) = s1 at e1
  have hpc1 : s1.pc = 0x202 := by rw [← hs1]; simp only [hpc]
  have hram1 : s1.ram = s0.ram := by rw [← hs1]
  have hV1 : s1.V = store s0.V X a := by rw [← hs1]
  have hf2 : fetch s1 = .ok (0x7000 + X * 256 + b) := by
    have := fetch_bytes s1 (0x70 + X) b (by omega) (by rw [hpc1, hram1]; exact g2)
      (by rw [hpc1, hram1]; exact g3) (by omega) hb
    rw [this]
    congr 1
    omega
  have e2 := step_7XNN r2 cfg s1 X b hX hb hf2
  refine ⟨s0, s1, _, hinit, hpc, hV, e1, e2, ?_, ?_, ?_, ?_⟩
  · simp only [store_same, hV1]
  · simp only [hpc1]
  · intro h
    simp only [hV1, store_other _ _ _ _ (Ne.symm h)]
  · intro k hk
    simp only [hV1, store_other _ _ _ _ hk]

/-- Witness of C2: the zeroed machine loaded with the program `6005 7003` has
`V0 = 8`, `pc = 0x204` and `VF = 0` after two steps. -/
theorem C2_load_then_add_witness :
    ∃ s0 s1 s2,
      init_chip8 chip8_zero (some [0x60, 0x05, 0x70, 0x03]) = .ok s0 ∧
      emulate_instr 0 default_config s0 = .ok s1 ∧
      emulate_instr 0 default_config s1 = .ok s2 ∧
      s2.V 0 = 8 ∧ s2.pc = 0x204 ∧ s2.V 0xF = 0 := by
  obtain ⟨s0, s1, s2, h0, _, hV, h1, h2, h3, h4, h5, _⟩ :=
    C2_load_then_add chip8_zero default_config 0 0 0 5 3 [] (by decide) (by decide)
      (by decide) (by decide)
  exact ⟨s0, s1, s2, h0, h1, h2, h3, h4, by rw [h5 (by decide), hV]; rfl⟩

/-! ## The register-register instructions `8XYN` -/

theorem decode_8XYN (X Y N : Nat) (hX : X < 16) (hY : Y < 16) (hN : N < 16) :
    (decode (op_8XYN X Y N)).opcode >>> 12 = 8 ∧ (decode (op_8XYN X Y N)).X = X ∧
    (decode (op_8XYN X Y N)).Y = Y ∧ (decode (op_8XYN X Y N)).N = N := by
  rw [decode_top, decode_X, decode_Y, decode_N]
  unfold op_8XYN
  omega

theorem execute_8 (r : Nat) (cfg : config_t) (c : chip8_t) (h : c.instr.opcode >>> 12 = 8) :
    execute r cfg c = .ok (case_0x09 (alu c)) := by
  unfold execute
  rw [h]

/-- One step of `8XYN`: the inner switch, then the body of `case 0x09`. -/
theorem step_8XYN (r : Nat) (cfg : config_t) (s : chip8_t) (X Y N : Nat)
    (hX : X < 16) (hY : Y < 16) (hN : N < 16) (hf : fetch s = .ok (op_8XYN X Y N)) :
    emulate_instr r cfg s = .ok (case_0x09 (alu (fetched s (op_8XYN X Y N)))) := by
  rw [emulate_instr_of_fetch r cfg hf]
  exact execute_8 r cfg _ (decode_8XYN X Y N hX hY hN).1

theorem alu_pc (c : chip8_t) : (alu c).pc = c.pc := by
  unfold alu
  split <;> rfl

theorem case_0x09_of_N (c : chip8_t) (h : c.instr.N ≠ 0) : case_0x09 c = c := by
  unfold case_0x09
  rw [if_pos h]

theorem case_0x09_alu (c : chip8_t) (h : c.instr.N ≠ 0) : case_0x09 (alu c) = alu c :=
  case_0x09_of_N _ (by rw [(alu_frame c).1]; exact h)

/-- Decoded fields of the machine on which the switch runs for the word `8XYN`. -/
theorem fetched_8XYN (s : chip8_t) (X Y N : Nat) (hX : X < 16) (hY : Y < 16) (hN : N < 16) :
    (fetched s (op_8XYN X Y N)).instr.X = X ∧ (fetched s (op_8XYN X Y N)).instr.Y = Y ∧
    (fetched s (op_8XYN X Y N)).instr.N = N :=
  (decode_8XYN X Y N hX hY hN).2

theorem alu_4 (c : chip8_t) (X Y : Nat) (hX : c.instr.X = X) (hY : c.instr.Y = Y)
    (h : c.instr.N = 4) :
    (alu c).V =
      store (store c.V 0xF (if c.V X + c.V Y > 255 then 1 else 0)) X
        ((store c.V 0xF (if c.V X + c.V Y > 255 then 1 else 0) X +
          store c.V 0xF (if c.V X + c.V Y > 255 then 1 else 0) Y) % 256) := by
  simp only [alu, h, hX, hY]
  split <;> rfl

theorem alu_5 (c : chip8_t) (X Y : Nat) (hX : c.instr.X = X) (hY : c.instr.Y = Y)
    (h : c.instr.N = 5) :
    (alu c).V =
      store (store c.V 0xF (if c.V Y > c.V X then 0 else 1)) X
        (to_u8 (((store c.V 0xF (if c.V Y > c.V X then 0 else 1) X : Nat) : Int) -
          ((store c.V 0xF (if c.V Y > c.V X then 0 else 1) Y : Nat) : Int))) := by
  simp only [alu, h, hX, hY]
  split <;> rfl

theorem alu_7 (c : chip8_t) (X Y : Nat) (hX : c.instr.X = X) (hY : c.instr.Y = Y)
    (h : c.instr.N = 7) :
    (alu c).V =
      store (store c.V 0xF (if c.V X > c.V Y then 0 else 1)) X
        (to_u8 (((store c.V 0xF (if c.V X > c.V Y then 0 else 1) Y : Nat) : Int) -
          ((store c.V 0xF (if c.V X > c.V Y then 0 else 1) X : Nat) : Int))) := by
  simp only [alu, h, hX, hY]
  split <;> rfl

theorem alu_6 (c : chip8_t) (X : Nat) (hX : c.instr.X = X) (h : c.instr.N = 6) :
    (alu c).V =
      store (store c.V 0xF (c.V X &&& 0x01)) X
        ((store c.V 0xF (c.V X &&& 0x01) X >>> 1) % 256) := by
  simp only [alu, h, hX]

theorem alu_E (c : chip8_t) (X : Nat) (hX : c.instr.X = X) (h : c.instr.N = 0xE) :
    (alu c).V =
      store (store c.V 0xF ((c.V X &&& 0x80) >>> 7)) X
        ((store c.V 0xF ((c.V X &&& 0x80) >>> 7) X <<< 1) % 256) := by
  simp only [alu, h, hX]

theorem alu_0 (c : chip8_t) (X Y : Nat) (hX : c.instr.X = X) (hY : c.instr.Y = Y)
    (h : c.instr.N = 0) : (alu c).V = store c.V X (c.V Y) := by
  simp only [alu, h, hX, hY]

theorem alu_1 (c : chip8_t) (X Y : Nat) (hX : c.instr.X = X) (hY : c.instr.Y = Y)
    (h : c.instr.N = 1) : (alu c).V = store c.V X ((c.V X ||| c.V Y) % 256) := by
  simp only [alu, h, hX, hY]

theorem alu_2 (c : chip8_t) (X Y : Nat) (hX : c.instr.X = X) (hY : c.instr.Y = Y)
    (h : c.instr.N = 2) : (alu c).V = store c.V X ((c.V X &&& c.V Y) % 256) := by
  simp only [alu, h, hX, hY]

theorem alu_3 (c : chip8_t) (X Y : Nat) (hX : c.instr.X = X) (hY : c.instr.Y = Y)
    (h : c.instr.N = 3) : (alu c).V = store c.V X ((c.V X ^^^ c.V Y) % 256) := by
  simp only [alu, h, hX, hY]

/-- Registers after `8XY4` when neither operand is `VF`: sum modulo 256 in `VX`,
carry in `VF`. -/
theorem add_carry_no_VF (r : Nat) (cfg : config_t) (s : chip8_t) (X Y : Nat)
    (hX : X < 15) (hY : Y < 15) (hf : fetch s = .ok (op_8XYN X Y 4)) :
    ∃ s1, emulate_instr r cfg s = .ok s1 ∧
      s1.V X = (s.V X + s.V Y) % 256 ∧
      s1.V 0xF = (if s.V X + s.V Y > 255 then 1 else 0) ∧ s1.pc = s.pc + 2 := by
  obtain ⟨h1, h2, h3⟩ := fetched_8XYN s X Y 4 (by omega) (by omega) (by decide)
  have hN : (fetched s (op_8XYN X Y 4)).instr.N ≠ 0 := by rw [h3]; decide
  refine ⟨_, step_8XYN r cfg s X Y 4 (by omega) (by omega) (by decide) hf, ?_, ?_, ?_⟩
  · rw [case_0x09_alu _ hN, alu_4 _ X Y h1 h2 h3, store_same,
      store_other _ _ _ _ (by omega : X ≠ 0xF), store_other _ _ _ _ (by omega : Y ≠ 0xF)]
    rfl
  · rw [case_0x09_alu _ hN, alu_4 _ X Y h1 h2 h3, store_other _ _ _ _ (by omega : 0xF ≠ X),
      store_same]
    rfl
  · rw [case_0x09_alu _ hN, alu_pc]
    rfl

/-- Bit 7 of a number, as extracted by `(v & 0x80) >> 7`. -/
theorem bit7 (v : Nat) : (v &&& 0x80) >>> 7 = v / 128 % 2 := by
  have h : (v &&& 0x80) >>> 7 = (v >>> 7) &&& (0x80 >>> 7) := by
    apply Nat.eq_of_testBit_eq
    intro i
    rw [Nat.testBit_shiftRight, Nat.testBit_and, Nat.testBit_and, Nat.testBit_shiftRight,
      Nat.testBit_shiftRight]
  rw [h]
  have : (0x80 : Nat) >>> 7 = 1 := by decide
  rw [this, Nat.and_one_is_mod, Nat.shiftRight_eq_div_pow]

/-- A step that evaluates to a machine is a defined step. -/
theorem exists_ok_of_map {ε α β : Type} (x : Except ε α) (f : α → β) (b : β)
    (h : x.toOption.map f = some b) : ∃ a, x = .ok a ∧ f a = b := by
  cases x with
  | error e => cases h
  | ok a => exact ⟨a, rfl, by simpa [Except.toOption] using h⟩

/-! ## C3, C4: add with carry, subtract with borrow

`case 4`, `case 5` and `case 7` write the flag into `V[0xF]` before they compute
the result, so that for `Y = 0xF` the second operand read by `+=` / `-=` is the
flag just written, not the value `VF` had before the instruction. -/

/-- C3 (code at the failing input): `80F4` with `V0 = 1`, `VF = 5` leaves
`V0 = 1` and `VF = 0`, whereas `(V0 + VF) mod 256` of the values before the
instruction is 6: the sum adds the carry flag just written to `VF`. -/
theorem C3_add_carry_reads_new_VF :
    ∃ s1, emulate_instr 0 default_config (machine_word 0x80 0xF4 (regs_0F 1 5)) = .ok s1 ∧
      s1.V 0 = 1 ∧ s1.V 0xF = 0 ∧ (regs_0F 1 5 0 + regs_0F 1 5 0xF) % 256 = 6 := by
  obtain ⟨s1, h1, h2⟩ := exists_ok_of_map
    (emulate_instr 0 default_config (machine_word 0x80 0xF4 (regs_0F 1 5)))
    (fun s => (s.V 0, s.V 0xF)) (1, 0) (by decide)
  simp only [Prod.mk.injEq] at h2
  exact ⟨s1, h1, h2.1, h2.2, by decide⟩

/-- C4 (code at the failing inputs): `80F5` with `V0 = 5`, `VF = 3` leaves
`V0 = 4` (the difference of the values before the instruction is 2), and `80F7`
with `V0 = 5`, `VF = 9` leaves `V0 = 252` (the difference `VF - V0` of the values
before the instruction is 4): both subtract the flag just written to `VF`. -/
theorem C4_subtract_reads_new_VF :
    (∃ s1, emulate_instr 0 default_config (machine_word 0x80 0xF5 (regs_0F 5 3)) = .ok s1 ∧
      s1.V 0 = 4 ∧ s1.V 0xF = 1 ∧ to_u8 ((regs_0F 5 3 0 : Int) - (regs_0F 5 3 0xF : Int)) = 2) ∧
    (∃ s1, emulate_instr 0 default_config (machine_word 0x80 0xF7 (regs_0F 5 9)) = .ok s1 ∧
      s1.V 0 = 252 ∧ s1.V 0xF = 1 ∧
      to_u8 ((regs_0F 5 9 0xF : Int) - (regs_0F 5 9 0 : Int)) = 4) := by
  constructor
  · obtain ⟨s1, h1, h2⟩ := exists_ok_of_map
      (emulate_instr 0 default_config (machine_word 0x80 0xF5 (regs_0F 5 3)))
      (fun s => (s.V 0, s.V 0xF)) (4, 1) (by decide)
    simp only [Prod.mk.injEq] at h2
    exact ⟨s1, h1, h2.1, h2.2, by decide⟩
  · obtain ⟨s1, h1, h2⟩ := exists_ok_of_map
      (emulate_instr 0 default_config (machine_word 0x80 0xF7 (regs_0F 5 9)))
      (fun s => (s.V 0, s.V 0xF)) (252, 1) (by decide)
    simp only [Prod.mk.injEq] at h2
    exact ⟨s1, h1, h2.1, h2.2, by decide⟩

/-- Registers after `8XY5` when neither operand is `VF`. -/
theorem sub_no_VF (r : Nat) (cfg : config_t) (s : chip8_t) (X Y : Nat)
    (hX : X < 15) (hY : Y < 15) (hf : fetch s = .ok (op_8XYN X Y 5)) :
    ∃ s1, emulate_instr r cfg s = .ok s1 ∧
      s1.V X = to_u8 ((s.V X : Int) - (s.V Y : Int)) ∧
      s1.V 0xF = (if s.V X ≥ s.V Y then 1 else 0) ∧ s1.pc = s.pc + 2 := by
  obtain ⟨h1, h2, h3⟩ := fetched_8XYN s X Y 5 (by omega) (by omega) (by decide)
  have hN : (fetched s (op_8XYN X Y 5)).instr.N ≠ 0 := by rw [h3]; decide
  refine ⟨_, step_8XYN r cfg s X Y 5 (by omega) (by omega) (by decide) hf, ?_, ?_, ?_⟩
  · rw [case_0x09_alu _ hN, alu_5 _ X Y h1 h2 h3, store_same,
      store_other _ _ _ _ (by omega : X ≠ 0xF), store_other _ _ _ _ (by omega : Y ≠ 0xF)]
    rfl
  · rw [case_0x09_alu _ hN, alu_5 _ X Y h1 h2 h3, store_other _ _ _ _ (by omega : 0xF ≠ X),
      store_same]
    show (if s.V Y > s.V X then 0 else 1) = _
    split <;> split <;> omega
  · rw [case_0x09_alu _ hN, alu_pc]
    rfl

/-- Registers after `8XY7` when neither operand is `VF`. -/
theorem subn_no_VF (r : Nat) (cfg : config_t) (s : chip8_t) (X Y : Nat)
    (hX : X < 15) (hY : Y < 15) (hf : fetch s = .ok (op_8XYN X Y 7)) :
    ∃ s1, emulate_instr r cfg s = .ok s1 ∧
      s1.V X = to_u8 ((s.V Y : Int) - (s.V X : Int)) ∧
      s1.V 0xF = (if s.V Y ≥ s.V X then 1 else 0) ∧ s1.pc = s.pc + 2 := by
  obtain ⟨h1, h2, h3⟩ := fetched_8XYN s X Y 7 (by omega) (by omega) (by decide)
  have hN : (fetched s (op_8XYN X Y 7)).instr.N ≠ 0 := by rw [h3]; decide
  refine ⟨_, step_8XYN r cfg s X Y 7 (by omega) (by omega) (by decide) hf, ?_, ?_, ?_⟩
  · rw [case_0x09_alu _ hN, alu_7 _ X Y h1 h2 h3, store_same,
      store_other _ _ _ _ (by omega : X ≠ 0xF), store_other _ _ _ _ (by omega : Y ≠ 0xF)]
    rfl
  · rw [case_0x09_alu _ hN, alu_7 _ X Y h1 h2 h3, store_other _ _ _ _ (by omega : 0xF ≠ X),
      store_same]
    show (if s.V X > s.V Y then 0 else 1) = _
    split <;> split <;> omega
  · rw [case_0x09_alu _ hN, alu_pc]
    rfl

/-! ## C5: shifts -/

/-- C5: for `X != 0xF` and a byte in `VX`, `8XY6` leaves `VX = floor(VX / 2)` and
`VF` = the low bit of the old `VX`; `8XYE` leaves `VX = (2 * VX) mod 256` and
`VF` = bit 7 of the old `VX`; in both cases `VF` is 0 or 1. -/
theorem C5_shifts (r : Nat) (cfg : config_t) (s : chip8_t) (X Y : Nat)
    (hX : X < 16) (hXF : X ≠ 0xF) (hY : Y < 16) (hV : s.V X < 256) :
    (fetch s = .ok (op_8XYN X Y 6) →
      ∃ s1, emulate_instr r cfg s = .ok s1 ∧ s1.V X = s.V X / 2 ∧
        s1.V 0xF = s.V X % 2 ∧ s1.V 0xF ≤ 1) ∧
    (fetch s = .ok (op_8XYN X Y 0xE) →
      ∃ s1, emulate_instr r cfg s = .ok s1 ∧ s1.V X = (2 * s.V X) % 256 ∧
        s1.V 0xF = s.V X / 128 % 2 ∧ s1.V 0xF ≤ 1) := by
  constructor
  · intro hf
    obtain ⟨h1, _, h3⟩ := fetched_8XYN s X Y 6 hX hY (by decide)
    have hN : (fetched s (op_8XYN X Y 6)).instr.N ≠ 0 := by rw [h3]; decide
    have hVX : (case_0x09 (alu (fetched s (op_8XYN X Y 6)))).V X = s.V X / 2 := by
      rw [case_0x09_alu _ hN, alu_6 _ X h1 h3, store_same, store_other _ _ _ _ hXF,
        Nat.shiftRight_eq_div_pow]
      show s.V X / 2 ^ 1 % 256 = _
      omega
    have hVF : (case_0x09 (alu (fetched s (op_8XYN X Y 6)))).V 0xF = s.V X % 2 := by
      rw [case_0x09_alu _ hN, alu_6 _ X h1 h3, store_other _ _ _ _ (Ne.symm hXF), store_same,
        Nat.and_one_is_mod]
      rfl
    refine ⟨_, step_8XYN r cfg s X Y 6 hX hY (by decide) hf, hVX, hVF, ?_⟩
    rw [hVF]
    omega
  · intro hf
    obtain ⟨h1, _, h3⟩ := fetched_8XYN s X Y 0xE hX hY (by decide)
    have hN : (fetched s (op_8XYN X Y 0xE)).instr.N ≠ 0 := by rw [h3]; decide
    have hVX : (case_0x09 (alu (fetched s (op_8XYN X Y 0xE)))).V X = (2 * s.V X) % 256 := by
      rw [case_0x09_alu _ hN, alu_E _ X h1 h3, store_same, store_other _ _ _ _ hXF,
        Nat.shiftLeft_eq]
      show s.V X * 2 ^ 1 % 256 = _
      omega
    have hVF : (case_0x09 (alu (fetched s (op_8XYN X Y 0xE)))).V 0xF = s.V X / 128 % 2 := by
      rw [case_0x09_alu _ hN, alu_E _ X h1 h3, store_other _ _ _ _ (Ne.symm hXF), store_same,
        bit7]
      rfl
    refine ⟨_, step_8XYN r cfg s X Y 0xE hX hY (by decide) hf, hVX, hVF, ?_⟩
    rw [hVF]
    omega


/-- After `8XY0` the body of `case 0x09` finds `VX = VY` and does not skip. -/
theorem case_0x09_after_assign (c : chip8_t) (X Y : Nat) (hX : c.instr.X = X)
    (hY : c.instr.Y = Y) (h : c.instr.N = 0) : case_0x09 (alu c) = alu c := by
  unfold case_0x09
  have hi := (alu_frame c).1
  rw [hi, h, hX, hY, alu_0 c X Y hX hY h]
  rw [if_neg (by decide), if_neg]
  rw [store_same]
  by_cases hYX : Y = X
  · rw [hYX, store_same]
    exact fun h => h rfl
  · rw [store_other _ _ _ _ hYX]
    exact fun h => h rfl

/-- Witness of C5: `8016` with `V0 = 5` leaves `V0 = 2`, `VF = 1`; `801E` with
`V0 = 0x81` leaves `V0 = 2`, `VF = 1`. -/
theorem C5_shifts_witness :
    (∃ s1, emulate_instr 0 default_config (machine_word 0x80 0x16 (regs_0F 5 0)) = .ok s1 ∧
      s1.V 0 = 2 ∧ s1.V 0xF = 1) ∧
    (∃ s1, emulate_instr 0 default_config (machine_word 0x80 0x1E (regs_0F 0x81 0)) = .ok s1 ∧
      s1.V 0 = 2 ∧ s1.V 0xF = 1) := by
  constructor
  · obtain ⟨s1, h, hv, hf, _⟩ := (C5_shifts 0 default_config
      (machine_word 0x80 0x16 (regs_0F 5 0)) 0 1 (by decide) (by decide) (by decide)
      (by decide)).1 rfl
    exact ⟨s1, h, hv, hf⟩
  · obtain ⟨s1, h, hv, hf, _⟩ := (C5_shifts 0 default_config
      (machine_word 0x80 0x1E (regs_0F 0x81 0)) 0 1 (by decide) (by decide) (by decide)
      (by decide)).2 rfl
    exact ⟨s1, h, hv, hf⟩

/-! ## C6: assign, OR, AND, XOR -/

/-- C6: for bytes in `VX` and `VY`, `8XY0`, `8XY1`, `8XY2`, `8XY3` set `VX` to
`VY`, `VX | VY`, `VX & VY`, `VX ^ VY`, leave every other register unchanged and
advance `pc` by exactly 2; `8XY0` does not skip although `case 0x08` runs on into
the comparison of `case 0x09`. -/
theorem C6_assign_or_and_xor (r : Nat) (cfg : config_t) (s : chip8_t) (X Y : Nat)
    (hX : X < 16) (hY : Y < 16) (hVX : s.V X < 256) (hVY : s.V Y < 256) :
    (fetch s = .ok (op_8XYN X Y 0) →
      ∃ s1, emulate_instr r cfg s = .ok s1 ∧ s1.V X = s.V Y ∧
        (∀ k, k ≠ X → s1.V k = s.V k) ∧ s1.pc = s.pc + 2) ∧
    (fetch s = .ok (op_8XYN X Y 1) →
      ∃ s1, emulate_instr r cfg s = .ok s1 ∧ s1.V X = s.V X ||| s.V Y ∧
        (∀ k, k ≠ X → s1.V k = s.V k) ∧ s1.pc = s.pc + 2) ∧
    (fetch s = .ok (op_8XYN X Y 2) →
      ∃ s1, emulate_instr r cfg s = .ok s1 ∧ s1.V X = s.V X &&& s.V Y ∧
        (∀ k, k ≠ X → s1.V k = s.V k) ∧ s1.pc = s.pc + 2) ∧
    (fetch s = .ok (op_8XYN X Y 3) →
      ∃ s1, emulate_instr r cfg s = .ok s1 ∧ s1.V X = s.V X ^^^ s.V Y ∧
        (∀ k, k ≠ X → s1.V k = s.V k) ∧ s1.pc = s.pc + 2) := by
  have hor : (s.V X ||| s.V Y) % 256 = s.V X ||| s.V Y :=
    Nat.mod_eq_of_lt (Nat.or_lt_two_pow (n := 8) hVX hVY)
  have hand : (s.V X &&& s.V Y) % 256 = s.V X &&& s.V Y :=
    Nat.mod_eq_of_lt (Nat.lt_of_le_of_lt Nat.and_le_left hVX)
  have hxor : (s.V X ^^^ s.V Y) % 256 = s.V X ^^^ s.V Y :=
    Nat.mod_eq_of_lt (Nat.xor_lt_two_pow (n := 8) hVX hVY)
  refine ⟨?_, ?_, ?_, ?_⟩
  · intro hf
    obtain ⟨h1, h2, h3⟩ := fetched_8XYN s X Y 0 hX hY (by decide)
    refine ⟨_, step_8XYN r cfg s X Y 0 hX hY (by decide) hf, ?_, ?_, ?_⟩
    · rw [case_0x09_after_assign _ X Y h1 h2 h3, alu_0 _ X Y h1 h2 h3, store_same]
      rfl
    · intro k hk
      rw [case_0x09_after_assign _ X Y h1 h2 h3, alu_0 _ X Y h1 h2 h3, store_other _ _ _ _ hk]
      rfl
    · rw [case_0x09_after_assign _ X Y h1 h2 h3, alu_pc]
      rfl
  · intro hf
    obtain ⟨h1, h2, h3⟩ := fetched_8XYN s X Y 1 hX hY (by decide)
    have hN : (fetched s (op_8XYN X Y 1)).instr.N ≠ 0 := by rw [h3]; decide
    refine ⟨_, step_8XYN r cfg s X Y 1 hX hY (by decide) hf, ?_, ?_, ?_⟩
    · rw [case_0x09_alu _ hN, alu_1 _ X Y h1 h2 h3, store_same]
      exact hor
    · intro k hk
      rw [case_0x09_alu _ hN, alu_1 _ X Y h1 h2 h3, store_other _ _ _ _ hk]
      rfl
    · rw [case_0x09_alu _ hN, alu_pc]
      rfl
  · intro hf
    obtain ⟨h1, h2, h3⟩ := fetched_8XYN s X Y 2 hX hY (by decide)
    have hN : (fetched s (op_8XYN X Y 2)).instr.N ≠ 0 := by rw [h3]; decide
    refine ⟨_, step_8XYN r cfg s X Y 2 hX hY (by decide) hf, ?_, ?_, ?_⟩
    · rw [case_0x09_alu _ hN, alu_2 _ X Y h1 h2 h3, store_same]
      exact hand
    · intro k hk
      rw [case_0x09_alu _ hN, alu_2 _ X Y h1 h2 h3, store_other _ _ _ _ hk]
      rfl
    · rw [case_0x09_alu _ hN, alu_pc]
      rfl
  · intro hf
    obtain ⟨h1, h2, h3⟩ := fetched_8XYN s X Y 3 hX hY (by decide)
    have hN : (fetched s (op_8XYN X Y 3)).instr.N ≠ 0 := by rw [h3]; decide
    refine ⟨_, step_8XYN r cfg s X Y 3 hX hY (by decide) hf, ?_, ?_, ?_⟩
    · rw [case_0x09_alu _ hN, alu_3 _ X Y h1 h2 h3, store_same]
      exact hxor
    · intro k hk
      rw [case_0x09_alu _ hN, alu_3 _ X Y h1 h2 h3, store_other _ _ _ _ hk]
      rfl
    · rw [case_0x09_alu _ hN, alu_pc]
      rfl

/-- Witness of C6: `8120`, `8121`, `8122`, `8123` with `V1 = 0x0C`, `V2 = 0x0A`
leave `V1 = 0x0A`, `0x0E`, `0x08`, `0x06` and `pc = 0x202`. -/
theorem C6_assign_or_and_xor_witness :
    (∃ s1, emulate_instr 0 default_config (machine_word 0x81 0x20 (regs_12 0x0C 0x0A)) = .ok s1 ∧
      s1.V 1 = 0x0A ∧ s1.pc = 0x202) ∧
    (∃ s1, emulate_instr 0 default_config (machine_word 0x81 0x21 (regs_12 0x0C 0x0A)) = .ok s1 ∧
      s1.V 1 = 0x0E ∧ s1.pc = 0x202) ∧
    (∃ s1, emulate_instr 0 default_config (machine_word 0x81 0x22 (regs_12 0x0C 0x0A)) = .ok s1 ∧
      s1.V 1 = 0x08 ∧ s1.pc = 0x202) ∧
    (∃ s1, emulate_instr 0 default_config (machine_word 0x81 0x23 (regs_12 0x0C 0x0A)) = .ok s1 ∧
      s1.V 1 = 0x06 ∧ s1.pc = 0x202) := by
  refine ⟨?_, ?_, ?_, ?_⟩
  · obtain ⟨s1, h, hv, _, hp⟩ := (C6_assign_or_and_xor 0 default_config
      (machine_word 0x81 0x20 (regs_12 0x0C 0x0A)) 1 2 (by decide) (by decide) (by decide)
      (by decide)).1 rfl
    exact ⟨s1, h, hv, hp⟩
  · obtain ⟨s1, h, hv, _, hp⟩ := (C6_assign_or_and_xor 0 default_config
      (machine_word 0x81 0x21 (regs_12 0x0C 0x0A)) 1 2 (by decide) (by decide) (by decide)
      (by decide)).2.1 rfl
    exact ⟨s1, h, hv, hp⟩
  · obtain ⟨s1, h, hv, _, hp⟩ := (C6_assign_or_and_xor 0 default_config
      (machine_word 0x81 0x22 (regs_12 0x0C 0x0A)) 1 2 (by decide) (by decide) (by decide)
      (by decide)).2.2.1 rfl
    exact ⟨s1, h, hv, hp⟩
  · obtain ⟨s1, h, hv, _, hp⟩ := (C6_assign_or_and_xor 0 default_config
      (machine_word 0x81 0x23 (regs_12 0x0C 0x0A)) 1 2 (by decide) (by decide) (by decide)
      (by decide)).2.2.2 rfl
    exact ⟨s1, h, hv, hp⟩

/-! ## C7: drawing a sprite that fits -/

theorem sprite_bit_ne (b j : Nat) : ((b >>> j) &&& 0x01 ≠ 0) ↔ b.testBit j = true := by
  rw [Nat.testBit_to_div_mod, Nat.and_one_is_mod, Nat.shiftRight_eq_div_pow]
  rcases Nat.mod_two_eq_zero_or_one (b / 2 ^ j) with h | h <;> simp [h]

theorem sprite_bit (b j : Nat) : decide ((b >>> j) &&& 0x01 ≠ 0) = b.testBit j := by
  by_cases h : b.testBit j = true
  · rw [h]
    exact decide_eq_true ((sprite_bit_ne b j).2 h)
  · rw [Bool.not_eq_true] at h
    rw [h]
    exact decide_eq_false (fun hn => by rw [(sprite_bit_ne b j).1 hn] at h; cases h)

/-- One iteration of the inner loop when the pixel is inside the display and the
next column is not past the width. -/
theorem draw_bits_succ (cfg : config_t) (hw : cfg.window_width = 64) (b y j x : Nat)
    (c : chip8_t) (hy : y < 32) (hx : x + 1 ≤ 64) :
    draw_bits cfg b y (j + 1) x c = draw_bits cfg b y j (x + 1) (plot c b j (y * 64 + x)) := by
  have h1 : (y * 64 + x) % 4294967296 = y * 64 + x := by omega
  have h2 : y * 64 + x < DISPLAY_SIZE := by unfold DISPLAY_SIZE; omega
  have h3 : (x + 1) % 256 = x + 1 := by omega
  have h4 : ¬ (x + 1 > 64) := by omega
  rw [draw_bits]
  simp only [hw, h1, h3]
  rw [if_pos h2, if_neg h4]
  congr 1
  rw [sprite_bit]
  unfold plot
  by_cases hc : b.testBit j = true ∧ c.display (y * 64 + x) = true
  · rw [if_pos hc, if_pos ⟨(sprite_bit_ne b j).2 hc.1, hc.2⟩]
  · rw [if_neg hc, if_neg (fun h => hc ⟨(sprite_bit_ne b j).1 h.1, h.2⟩)]


theorem plot_display_same (c : chip8_t) (b j idx : Nat) :
    (plot c b j idx).display idx = xor (c.display idx) (b.testBit j) :=
  store_same _ _ _

theorem plot_display_other (c : chip8_t) (b j idx p : Nat) (h : p ≠ idx) :
    (plot c b j idx).display p = c.display p :=
  store_other _ _ _ _ h

theorem plot_V_other (c : chip8_t) (b j idx k : Nat) (h : k ≠ 0xF) :
    (plot c b j idx).V k = c.V k := by
  unfold plot
  dsimp only
  split
  · exact store_other _ _ _ _ h
  · rfl

theorem plot_V_hit (c : chip8_t) (b j idx : Nat)
    (h : b.testBit j = true ∧ c.display idx = true) : (plot c b j idx).V 0xF = 1 := by
  unfold plot
  dsimp only
  rw [if_pos h]
  exact store_same _ _ _

theorem plot_V_nohit (c : chip8_t) (b j idx : Nat)
    (h : ¬ (b.testBit j = true ∧ c.display idx = true)) : (plot c b j idx).V = c.V := by
  unfold plot
  dsimp only
  rw [if_neg h]

theorem plot_V_keep (c : chip8_t) (b j idx : Nat) (h : c.V 0xF = 1) :
    (plot c b j idx).V 0xF = 1 := by
  by_cases hc : b.testBit j = true ∧ c.display idx = true
  · exact plot_V_hit c b j idx hc
  · rw [plot_V_nohit c b j idx hc]
    exact h

/-- Inner loop of `DXYN` on a row that fits: the `n` pixels from column `x` are
XORed with the bits `n-1 .. 0` of the sprite byte, `VF` becomes 1 when a set bit
meets a set pixel and is otherwise kept. -/
theorem draw_bits_spec (cfg : config_t) (hw : cfg.window_width = 64) (b y : Nat)
    (hy : y < 32) :
    ∀ (n x : Nat) (c : chip8_t), x + n ≤ 64 →
      ∃ c1, draw_bits cfg b y n x c = .ok c1 ∧
        (∀ i, i < n →
          c1.display (y * 64 + x + i) =
            xor (c.display (y * 64 + x + i)) (b.testBit (n - 1 - i))) ∧
        (∀ p, (p < y * 64 + x ∨ y * 64 + x + n ≤ p) → c1.display p = c.display p) ∧
        (∀ k, k ≠ 0xF → c1.V k = c.V k) ∧
        ((c.V 0xF = 1 ∨ ∃ i, i < n ∧ b.testBit (n - 1 - i) = true ∧
            c.display (y * 64 + x + i) = true) → c1.V 0xF = 1) ∧
        ((¬ ∃ i, i < n ∧ b.testBit (n - 1 - i) = true ∧
            c.display (y * 64 + x + i) = true) → c1.V 0xF = c.V 0xF) := by
  intro n
  induction n with
  | zero =>
    intro x c _
    refine ⟨c, rfl, ?_, ?_, ?_, ?_, ?_⟩
    · intro i hi
      exact absurd hi (Nat.not_lt_zero i)
    · intro p _
      rfl
    · intro k _
      rfl
    · rintro (h | ⟨i, hi, _⟩)
      · exact h
      · exact absurd hi (Nat.not_lt_zero i)
    · intro _
      rfl
  | succ j ih =>
    intro x c hx
    rw [draw_bits_succ cfg hw b y j x c hy (by omega)]
    obtain ⟨c1, hrun, hpix, hout, hV, hhit, hno⟩ :=
      ih (x + 1) (plot c b j (y * 64 + x)) (by omega)
    refine ⟨c1, hrun, ?_, ?_, ?_, ?_, ?_⟩
    · intro i hi
      cases i with
      | zero =>
        rw [hout (y * 64 + x + 0) (Or.inl (by omega))]
        exact plot_display_same c b j (y * 64 + x)
      | succ i =>
        have e : y * 64 + x + (i + 1) = y * 64 + (x + 1) + i := by omega
        have e2 : j + 1 - 1 - (i + 1) = j - 1 - i := by omega
        rw [e, e2, hpix i (by omega), plot_display_other _ _ _ _ _ (by omega)]
    · intro p hp
      rw [hout p (by omega), plot_display_other _ _ _ _ _ (by omega)]
    · intro k hk
      rw [hV k hk, plot_V_other _ _ _ _ _ hk]
    · rintro (h | ⟨i, hi, hb, hd⟩)
      · exact hhit (Or.inl (plot_V_keep c b j _ h))
      · cases i with
        | zero => exact hhit (Or.inl (plot_V_hit c b j _ ⟨hb, hd⟩))
        | succ i =>
          have e : y * 64 + x + (i + 1) = y * 64 + (x + 1) + i := by omega
          have e2 : j + 1 - 1 - (i + 1) = j - 1 - i := by omega
          rw [e] at hd
          rw [e2] at hb
          exact hhit (Or.inr ⟨i, by omega, hb,
            by rw [plot_display_other _ _ _ _ _ (by omega)]; exact hd⟩)
    · intro hnone
      have h0 : ¬ (b.testBit j = true ∧ c.display (y * 64 + x) = true) := by
        intro h
        exact hnone ⟨0, by omega, h.1, h.2⟩
      rw [hno ?_, plot_V_nohit c b j _ h0]
      rintro ⟨i, hi, hb, hd⟩
      have e : y * 64 + x + (i + 1) = y * 64 + (x + 1) + i := by omega
      have e2 : j + 1 - 1 - (i + 1) = j - 1 - i := by omega
      rw [plot_display_other _ _ _ _ _ (by omega)] at hd
      exact hnone ⟨i + 1, by omega, by rw [e2]; exact hb, by rw [e]; exact hd⟩


theorem draw_bits_pc (cfg : config_t) (b y : Nat) :
    ∀ (n x : Nat) (c c1 : chip8_t), draw_bits cfg b y n x c = .ok c1 → c1.pc = c.pc := by
  intro n
  induction n with
  | zero =>
    intro x c c1 h
    simp only [draw_bits] at h
    cases h
    rfl
  | succ j ih =>
    intro x c c1 h
    simp only [draw_bits] at h
    split at h
    · split at h
      · cases h
        split <;> rfl
      · have := ih _ _ _ h
        revert this
        split <;> exact id
    · cases h

/-- One iteration of the outer loop when the sprite byte is inside the RAM and the
next row is not past the height. -/
theorem draw_rows_succ (cfg : config_t) (hh : cfg.window_height = 32) (x0 n i y : Nat)
    (c : chip8_t) (hy : y + 1 ≤ 32) (hI : c.I + i < 4096) :
    draw_rows cfg x0 (n + 1) i y c =
      match draw_bits cfg (c.ram (c.I + i)) y 8 x0 c with
      | .error e => .error e
      | .ok c1 => draw_rows cfg x0 n (i + 1) (y + 1) c1 := by
  have h1 : c.I + i < RAM_SIZE := hI
  have h3 : (y + 1) % 256 = y + 1 := by omega
  have h4 : ¬ (y + 1 > 32) := by omega
  rw [draw_rows]
  simp only [hh, h3]
  rw [if_pos h1]
  cases draw_bits cfg (c.ram (c.I + i)) y 8 x0 c with
  | error e => rfl
  | ok c1 =>
    dsimp only
    rw [if_neg h4]

/-- Outer loop of `DXYN` on a sprite that fits: the `8 x n` pixels from row `y`,
column `x0` are XORed with the sprite bits, `VF` becomes 1 when a set bit meets a
set pixel and is otherwise kept. -/
theorem draw_rows_spec (cfg : config_t) (hw : cfg.window_width = 64)
    (hh : cfg.window_height = 32) (x0 : Nat) (hx0 : x0 + 8 ≤ 64) :
    ∀ (n i y : Nat) (c : chip8_t), y + n ≤ 32 → c.I + i + n ≤ 4096 →
      ∃ c1, draw_rows cfg x0 n i y c = .ok c1 ∧
        (∀ r col, r < n → col < 8 →
          c1.display ((y + r) * 64 + x0 + col) =
            xor (c.display ((y + r) * 64 + x0 + col))
              ((c.ram (c.I + i + r)).testBit (7 - col))) ∧
        (∀ p, (∀ r col, r < n → col < 8 → p ≠ (y + r) * 64 + x0 + col) →
          c1.display p = c.display p) ∧
        (∀ k, k ≠ 0xF → c1.V k = c.V k) ∧
        ((c.V 0xF = 1 ∨ ∃ r col, r < n ∧ col < 8 ∧
            (c.ram (c.I + i + r)).testBit (7 - col) = true ∧
            c.display ((y + r) * 64 + x0 + col) = true) → c1.V 0xF = 1) ∧
        ((¬ ∃ r col, r < n ∧ col < 8 ∧
            (c.ram (c.I + i + r)).testBit (7 - col) = true ∧
            c.display ((y + r) * 64 + x0 + col) = true) → c1.V 0xF = c.V 0xF) ∧
        c1.I = c.I ∧ c1.ram = c.ram ∧ c1.pc = c.pc := by
  intro n
  induction n with
  | zero =>
    intro i y c _ _
    refine ⟨c, rfl, ?_, ?_, ?_, ?_, ?_, rfl, rfl, rfl⟩
    · intro r col hr
      exact absurd hr (Nat.not_lt_zero r)
    · intro p _
      rfl
    · intro k _
      rfl
    · rintro (h | ⟨r, col, hr, _⟩)
      · exact h
      · exact absurd hr (Nat.not_lt_zero r)
    · intro _
      rfl
  | succ n ih =>
    intro i y c hy hI
    obtain ⟨c1, hrun1, hpix1, hout1, hV1, hhit1, hno1⟩ :=
      draw_bits_spec cfg hw (c.ram (c.I + i)) y (by omega) 8 x0 c hx0
    obtain ⟨_, _, hram1, _, hI1⟩ := draw_bits_frame cfg _ _ _ _ _ _ hrun1
    have hpc1 := draw_bits_pc cfg _ _ _ _ _ _ hrun1
    obtain ⟨c2, hrun2, hpix2, hout2, hV2, hhit2, hno2, hI2, hram2, hpc2⟩ :=
      ih (i + 1) (y + 1) c1 (by omega) (by rw [hI1]; omega)
    have hrun : draw_rows cfg x0 (n + 1) i y c = .ok c2 := by
      rw [draw_rows_succ cfg hh x0 n i y c (by omega) (by omega), hrun1]
      exact hrun2
    -- pixels of the later rows are not touched by the first row
    have later : ∀ r col, col < 8 →
        c1.display ((y + 1 + r) * 64 + x0 + col) = c.display ((y + 1 + r) * 64 + x0 + col) :=
      fun r col hcol => hout1 _ (Or.inr (by omega))
    refine ⟨c2, hrun, ?_, ?_, ?_, ?_, ?_, hI2.trans hI1, hram2.trans hram1, hpc2.trans hpc1⟩
    · intro r col hr hcol
      cases r with
      | zero =>
        have e : (y + 0) * 64 + x0 + col = y * 64 + x0 + col := by omega
        rw [e, hout2 _ (by intro r' col' _ hcol'; omega), hpix1 col hcol]
        rfl
      | succ r =>
        have e : (y + (r + 1)) * 64 + x0 + col = (y + 1 + r) * 64 + x0 + col := by omega
        have e2 : c.I + i + (r + 1) = c1.I + (i + 1) + r := by rw [hI1]; omega
        rw [e, e2, hpix2 r col (by omega) hcol, later r col hcol, hram1]
    · intro p hp
      rw [hout2 p ?_, hout1 p ?_]
      · by_contra hcon
        exact hp 0 (p - (y * 64 + x0)) (by omega) (by omega) (by omega)
      · intro r col hr hcol
        have := hp (r + 1) col (by omega) hcol
        omega
    · intro k hk
      rw [hV2 k hk, hV1 k hk]
    · rintro (h | ⟨r, col, hr, hcol, hb, hd⟩)
      · exact hhit2 (Or.inl (hhit1 (Or.inl h)))
      · cases r with
        | zero =>
          have e : (y + 0) * 64 + x0 + col = y * 64 + x0 + col := by omega
          rw [e] at hd
          exact hhit2 (Or.inl (hhit1 (Or.inr ⟨col, hcol, hb, hd⟩)))
        | succ r =>
          have e : (y + (r + 1)) * 64 + x0 + col = (y + 1 + r) * 64 + x0 + col := by omega
          have e2 : c.I + i + (r + 1) = c1.I + (i + 1) + r := by rw [hI1]; omega
          rw [e] at hd
          rw [e2, ← hram1] at hb
          exact hhit2 (Or.inr ⟨r, col, by omega, hcol, hb, by rw [later r col hcol]; exact hd⟩)
    · intro hnone
      rw [hno2 ?_, hno1 ?_]
      · rintro ⟨col, hcol, hb, hd⟩
        have e : (y + 0) * 64 + x0 + col = y * 64 + x0 + col := by omega
        exact hnone ⟨0, col, by omega, hcol, hb, by rw [e]; exact hd⟩
      · rintro ⟨r, col, hr, hcol, hb, hd⟩
        have e : (y + (r + 1)) * 64 + x0 + col = (y + 1 + r) * 64 + x0 + col := by omega
        have e2 : c.I + i + (r + 1) = c1.I + (i + 1) + r := by rw [hI1]; omega
        rw [later r col hcol] at hd
        rw [hram1] at hb
        exact hnone ⟨r + 1, col, by omega, hcol, by rw [e2]; exact hb, by rw [e]; exact hd⟩


theorem decode_DXYN (X Y N : Nat) (hX : X < 16) (hY : Y < 16) (hN : N < 16) :
    (decode (op_DXYN X Y N)).opcode >>> 12 = 0xD ∧ (decode (op_DXYN X Y N)).X = X ∧
    (decode (op_DXYN X Y N)).Y = Y ∧ (decode (op_DXYN X Y N)).N = N := by
  rw [decode_top, decode_X, decode_Y, decode_N]
  unfold op_DXYN
  omega

theorem execute_D (r : Nat) (cfg : config_t) (c : chip8_t) (h : c.instr.opcode >>> 12 = 0xD) :
    execute r cfg c = draw cfg c := by
  unfold execute
  rw [h]

theorem draw_64x32 (cfg : config_t) (hw : cfg.window_width = 64)
    (hh : cfg.window_height = 32) (c : chip8_t) :
    draw cfg c =
      draw_rows cfg (c.V c.instr.X % 64) c.instr.N 0 (c.V c.instr.Y % 32)
        { c with V := store c.V 0x0F 0 } := by
  unfold draw
  rw [hw, hh, if_neg (by decide)]
  have h1 : c.V c.instr.X % 64 % 256 = c.V c.instr.X % 64 := by omega
  have h2 : c.V c.instr.Y % 32 % 256 = c.V c.instr.Y % 32 := by omega
  simp only [h1, h2]

/-- C7: on the 64x32 display, with `x0 = VX mod 64`, `y0 = VY mod 32`, for `DXYN`
with `x0 + 8 <= 64`, `y0 + N <= 32` and `I + N <= 4096`: the step is defined; for
every row `< N` and column `< 8` the pixel `(y0+row)*64 + (x0+col)` is its old
value XOR bit `7-col` of `ram[I+row]`; every other pixel is unchanged; `VF = 1`
if a set sprite bit landed on a pixel that was set, otherwise `VF = 0`; `I`, the
RAM and the registers other than `VF` are unchanged and `pc` advances by 2. -/
theorem C7_draw_sprite (r : Nat) (cfg : config_t) (s : chip8_t) (X Y N : Nat)
    (hw : cfg.window_width = 64) (hh : cfg.window_height = 32)
    (hX : X < 16) (hY : Y < 16) (hN : N < 16) (hf : fetch s = .ok (op_DXYN X Y N))
    (hx : s.V X % 64 + 8 ≤ 64) (hy : s.V Y % 32 + N ≤ 32) (hI : s.I + N ≤ 4096) :
    ∃ s1, emulate_instr r cfg s = .ok s1 ∧
      (∀ row col, row < N → col < 8 →
        s1.display ((s.V Y % 32 + row) * 64 + (s.V X % 64 + col)) =
          xor (s.display ((s.V Y % 32 + row) * 64 + (s.V X % 64 + col)))
            ((s.ram (s.I + row)).testBit (7 - col))) ∧
      (∀ p, (∀ row col, row < N → col < 8 →
          p ≠ (s.V Y % 32 + row) * 64 + (s.V X % 64 + col)) → s1.display p = s.display p) ∧
      ((∃ row col, row < N ∧ col < 8 ∧ (s.ram (s.I + row)).testBit (7 - col) = true ∧
          s.display ((s.V Y % 32 + row) * 64 + (s.V X % 64 + col)) = true) → s1.V 0xF = 1) ∧
      ((¬ ∃ row col, row < N ∧ col < 8 ∧ (s.ram (s.I + row)).testBit (7 - col) = true ∧
          s.display ((s.V Y % 32 + row) * 64 + (s.V X % 64 + col)) = true) → s1.V 0xF = 0) ∧
      s1.I = s.I ∧ s1.ram = s.ram ∧ (∀ k, k ≠ 0xF → s1.V k = s.V k) ∧ s1.pc = s.pc + 2 := by
  obtain ⟨htop, h1, h2, h3⟩ := decode_DXYN X Y N hX hY hN
  have hc : ∃ c : chip8_t, emulate_instr r cfg s = execute r cfg c ∧
      c.instr.opcode >>> 12 = 0xD ∧ c.instr.X = X ∧ c.instr.Y = Y ∧ c.instr.N = N ∧
      c.V = s.V ∧ c.display = s.display ∧ c.I = s.I ∧ c.ram = s.ram ∧ c.pc = s.pc + 2 :=
    ⟨_, emulate_instr_of_fetch r cfg hf, htop, h1, h2, h3, rfl, rfl, rfl, rfl, rfl⟩
  obtain ⟨c, hstep, hctop, hcX, hcY, hcN, hcV, hcd, hcI, hcram, hcpc⟩ := hc
  rw [execute_D r cfg c hctop, draw_64x32 cfg hw hh c, hcX, hcY, hcN, hcV] at hstep
  have hc0 : ∃ c0 : chip8_t, c0 = ({ c with V := store s.V 0x0F 0 } : chip8_t) ∧
      c0.V = store s.V 0x0F 0 ∧ c0.display = s.display ∧ c0.I = s.I ∧ c0.ram = s.ram ∧
      c0.pc = s.pc + 2 := ⟨_, rfl, rfl, hcd, hcI, hcram, hcpc⟩
  obtain ⟨c0, hc0, hV0, hd0, hI0, hram0, hpc0⟩ := hc0
  rw [← hc0] at hstep
  obtain ⟨s1, hrun, hpix, hout, hV, hhit, hno, hI1, hram1, hpc1⟩ :=
    draw_rows_spec cfg hw hh (s.V X % 64) hx N 0 (s.V Y % 32) c0 hy (by rw [hI0]; omega)
  rw [hd0, hram0, hI0, Nat.add_zero] at hpix hhit hno
  rw [hd0] at hout
  rw [hV0] at hV hhit hno
  have eidx : ∀ row col, (s.V Y % 32 + row) * 64 + (s.V X % 64 + col) =
      (s.V Y % 32 + row) * 64 + s.V X % 64 + col := fun row col => by omega
  refine ⟨s1, hstep.trans hrun, ?_, ?_, ?_, ?_, hI1.trans hI0, hram1.trans hram0, ?_,
    hpc1.trans hpc0⟩
  · intro row col hrow hcol
    rw [eidx, hpix row col hrow hcol]
  · intro p hp
    exact hout p (fun row col hrow hcol => by rw [← eidx]; exact hp row col hrow hcol)
  · rintro ⟨row, col, hrow, hcol, hb, hd⟩
    exact hhit (Or.inr ⟨row, col, hrow, hcol, hb, by rw [← eidx]; exact hd⟩)
  · intro hnone
    rw [hno ?_]
    · exact store_same _ _ _
    · rintro ⟨row, col, hrow, hcol, hb, hd⟩
      exact hnone ⟨row, col, hrow, hcol, hb, by rw [eidx]; exact hd⟩
  · intro k hk
    rw [hV k hk]
    exact store_other _ _ _ _ hk

/-- Witness of C7: on an all-zero display the one-byte sprite `0x80` drawn at
`(0,0)` sets pixel `(0,0)` with `VF = 0`; drawing it again clears the pixel with
`VF = 1`. -/
theorem C7_draw_sprite_witness :
    ∃ s1 s2, emulate_instr 0 default_config machine_sprite = .ok s1 ∧
      s1.display 0 = true ∧ s1.V 0xF = 0 ∧
      emulate_instr 0 default_config s1 = .ok s2 ∧
      s2.display 0 = false ∧ s2.V 0xF = 1 := by
  obtain ⟨s1, h1, hpix1, _, _, hno1, hI1, hram1, hV1, hpc1⟩ :=
    C7_draw_sprite 0 default_config machine_sprite 0 1 1 rfl rfl (by decide) (by decide)
      (by decide) rfl (by decide) (by decide) (by decide)
  have hd1 : s1.display 0 = true := hpix1 0 0 (by decide) (by decide)
  have hf1 : s1.V 0xF = 0 := hno1 (by
    rintro ⟨row, col, _, _, _, hd⟩
    cases hd)
  have hv0 : s1.V 0 = 0 := hV1 0 (by decide)
  have hv1 : s1.V 1 = 0 := hV1 1 (by decide)
  have hfetch : fetch s1 = .ok (op_DXYN 0 1 1) :=
    has_word_fetch machine_sprite s1 0x202 _ rfl hpc1 hram1
  obtain ⟨s2, h2, hpix2, _, hhit2, _⟩ :=
    C7_draw_sprite 0 default_config s1 0 1 1 rfl rfl (by decide) (by decide)
      (by decide) hfetch (by rw [hv0]; decide) (by rw [hv1]; decide) (by rw [hI1]; decide)
  have hd2 := hpix2 0 0 (by decide) (by decide)
  rw [hv0, hv1, hI1, hram1] at hd2
  have hd2' : s2.display 0 = xor (s1.display 0) true := hd2
  rw [hd1] at hd2'
  refine ⟨s1, s2, h1, hd1, hf1, h2, hd2', ?_⟩
  apply hhit2
  refine ⟨0, 0, by decide, by decide, ?_, ?_⟩
  · rw [hI1, hram1]
    rfl
  · rw [hv0, hv1]
    exact hd1

/-! ## C8: drawing at the right and bottom edges -/

/-- C8 (code at the failing inputs): the loops of `DXYN` stop on `++x > width`
and `++y > height`, one column and one row too late. Drawing two rows at row 31
writes `display[2048]`, outside the array of `64*32` pixels; drawing `FF` at
column 60 of row 0 writes the sprite bit of column 64 into `display[64]`, which
is column 0 of row 1. -/
theorem C8_draw_past_the_edges :
    emulate_instr 0 default_config machine_draw_bottom = .error (.display_index 2048) ∧
    (∃ s1, emulate_instr 0 default_config machine_draw_right = .ok s1 ∧
      machine_draw_right.display 64 = false ∧ s1.display 64 = true) := by
  refine ⟨rfl, ?_⟩
  obtain ⟨s1, h1, h2⟩ := exists_ok_of_map
    (emulate_instr 0 default_config machine_draw_right) (fun s => s.display 64) true
    (by decide)
  exact ⟨s1, h1, rfl, h2⟩

/-! ## Call and return -/

theorem execute_2 (r : Nat) (cfg : config_t) (c : chip8_t) (h : c.instr.opcode >>> 12 = 2) :
    execute r cfg c =
      if c.stack_ptr < STACK_SIZE then
        .ok { c with stack := store c.stack c.stack_ptr c.pc
                     stack_ptr := c.stack_ptr + 1
                     pc := c.instr.NNN }
      else .error (.stack_index c.stack_ptr) := by
  unfold execute
  rw [h]

theorem execute_00EE (r : Nat) (cfg : config_t) (c : chip8_t) (h : c.instr.opcode >>> 12 = 0)
    (hNN : c.instr.NN = 0xEE) :
    execute r cfg c =
      if c.stack_ptr = 0 then .error (.stack_index (-1))
      else if c.stack_ptr - 1 < STACK_SIZE then
        .ok { c with stack_ptr := c.stack_ptr - 1
                     pc := c.stack (c.stack_ptr - 1) }
      else .error (.stack_index (c.stack_ptr - 1 : Nat)) := by
  unfold execute
  rw [h]
  simp only [hNN]
  rfl

/-- One step of `2NNN`, whatever the stack depth. -/
theorem step_2NNN (r : Nat) (cfg : config_t) (s : chip8_t) (NNN : Nat) (hN : NNN < 4096)
    (hf : fetch s = .ok (0x2000 + NNN)) :
    emulate_instr r cfg s =
      if s.stack_ptr < 12 then
        .ok { s with pc := NNN, instr := decode (0x2000 + NNN),
                     stack := store s.stack s.stack_ptr (s.pc + 2),
                     stack_ptr := s.stack_ptr + 1 }
      else .error (.stack_index s.stack_ptr) := by
  rw [emulate_instr_of_fetch r cfg hf, execute_2 _ _ _ (by rw [decode_top]; omega)]
  simp only [decode_NNN, STACK_SIZE]
  have h1 : (0x2000 + NNN) % 4096 = NNN := by omega
  rw [h1]

/-- One step of `00EE`, whatever the stack depth. -/
theorem step_00EE (r : Nat) (cfg : config_t) (s : chip8_t) (hf : fetch s = .ok 0x00EE) :
    emulate_instr r cfg s =
      if s.stack_ptr = 0 then .error (.stack_index (-1))
      else if s.stack_ptr - 1 < 12 then
        .ok { s with pc := s.stack (s.stack_ptr - 1), instr := decode 0x00EE,
                     stack_ptr := s.stack_ptr - 1 }
      else .error (.stack_index (s.stack_ptr - 1 : Nat)) := by
  rw [emulate_instr_of_fetch r cfg hf, execute_00EE _ _ _ (by rw [decode_top]) (by rw [decode_NN])]
  rfl

/-- Machine after `j` nested calls: call `i` is fetched at `a i` and jumps to
`a (i + 1)`. -/
theorem calls_phase (rv : Nat → Nat) (cfg : config_t) (s : chip8_t) (a : Nat → Nat) (k : Nat)
    (h0 : s.pc = a 0) (hsp : s.stack_ptr + k ≤ 12)
    (hcall : ∀ i, i < k → has_word s (a i) (0x2000 + a (i + 1)))
    (hk : a k < 4096) :
    ∀ j, j ≤ k → ∃ sj, run rv cfg j s = .ok sj ∧ sj.pc = a j ∧
      sj.stack_ptr = s.stack_ptr + j ∧
      (∀ i, i < j → sj.stack (s.stack_ptr + i) = a i + 2) ∧
      (∀ i, i < s.stack_ptr → sj.stack i = s.stack i) ∧ sj.ram = s.ram := by
  intro j
  induction j with
  | zero =>
    intro _
    exact ⟨s, rfl, h0, rfl, fun i hi => absurd hi (Nat.not_lt_zero i), fun _ _ => rfl, rfl⟩
  | succ j ih =>
    intro hj
    obtain ⟨sj, hrun, hpc, hsj, hst, hlow, hram⟩ := ih (by omega)
    have hlt : a (j + 1) < 4096 := by
      by_cases hjk : j + 1 < k
      · have := has_word_lt s _ _ (hcall (j + 1) hjk)
        omega
      · have : j + 1 = k := by omega
        rw [this]
        exact hk
    have hf : fetch sj = .ok (0x2000 + a (j + 1)) :=
      has_word_fetch s sj _ _ (hcall j (by omega)) hpc hram
    have hstep := step_2NNN (rv j) cfg sj (a (j + 1)) hlt hf
    rw [if_pos (by omega)] at hstep
    refine ⟨_, (run_succ rv cfg j s sj hrun).trans hstep, rfl, ?_, ?_, ?_, hram⟩
    · show sj.stack_ptr + 1 = _
      omega
    · intro i hi
      show store sj.stack sj.stack_ptr (sj.pc + 2) (s.stack_ptr + i) = _
      by_cases hij : i = j
      · rw [hij, ← hsj, store_same, hpc]
      · rw [store_other _ _ _ _ (by omega)]
        exact hst i (by omega)
    · intro i hi
      show store sj.stack sj.stack_ptr (sj.pc + 2) i = _
      rw [store_other _ _ _ _ (by omega)]
      exact hlow i hi

/-- Machine after `k` nested calls and `j` returns. -/
theorem returns_phase (rv : Nat → Nat) (cfg : config_t) (s : chip8_t) (a : Nat → Nat) (k : Nat)
    (h0 : s.pc = a 0) (hsp : s.stack_ptr + k ≤ 12)
    (hcall : ∀ i, i < k → has_word s (a i) (0x2000 + a (i + 1)))
    (hret : has_word s (a k) 0x00EE)
    (hrets : ∀ i, 1 ≤ i → i < k → has_word s (a i + 2) 0x00EE) :
    ∀ j, j ≤ k → ∃ sj, run rv cfg (k + j) s = .ok sj ∧
      sj.pc = (if j = 0 then a k else a (k - j) + 2) ∧
      sj.stack_ptr = s.stack_ptr + k - j ∧
      (∀ i, i < k - j → sj.stack (s.stack_ptr + i) = a i + 2) ∧
      (∀ i, i < s.stack_ptr → sj.stack i = s.stack i) ∧ sj.ram = s.ram := by
  intro j
  induction j with
  | zero =>
    intro _
    obtain ⟨sk, hrun, hpc, hsk, hst, hlow, hram⟩ :=
      calls_phase rv cfg s a k h0 hsp hcall (by have := has_word_lt s _ _ hret; omega) k
        (Nat.le_refl k)
    exact ⟨sk, hrun, by rw [if_pos rfl]; exact hpc, hsk, hst, hlow, hram⟩
  | succ j ih =>
    intro hj
    obtain ⟨sj, hrun, hpc, hsj, hst, hlow, hram⟩ := ih (by omega)
    have hf : fetch sj = .ok 0x00EE := by
      by_cases hj0 : j = 0
      · rw [if_pos hj0] at hpc
        exact has_word_fetch s sj _ _ hret hpc hram
      · rw [if_neg hj0] at hpc
        exact has_word_fetch s sj _ _ (hrets (k - j) (by omega) (by omega)) hpc hram
    have hstep := step_00EE (rv (k + j)) cfg sj hf
    rw [if_neg (by omega), if_pos (by omega)] at hstep
    refine ⟨_, (run_succ rv cfg (k + j) s sj hrun).trans hstep, ?_, ?_, ?_, hlow, hram⟩
    · show sj.stack (sj.stack_ptr - 1) = _
      rw [if_neg (by omega)]
      have h1 : sj.stack_ptr - 1 = s.stack_ptr + (k - (j + 1)) := by omega
      rw [h1]
      exact hst _ (by omega)
    · show sj.stack_ptr - 1 = _
      omega
    · intro i hi
      exact hst i (by omega)

/-! ## C9: call and return -/

/-- C9: with fewer than 12 return addresses on the stack, `2NNN` fetched at `p`
sets `pc = NNN` and pushes `p + 2` (the slots below are unchanged), and a `00EE`
fetched at `NNN` then sets `pc = p + 2` and restores the depth and the contents
of the stack. For `k` nested calls with `stack_ptr + k <= 12`, call `i` fetched at
`a i` and jumping to `a (i + 1)`, the stack holds `a 0 + 2, .., a (j - 1) + 2`
after `j` calls, and the `j`-th of the following returns sets
`pc = a (k - j) + 2`: last in, first out. -/
theorem C9_call_return :
    (∀ (r1 r2 : Nat) (cfg : config_t) (s : chip8_t) (NNN : Nat),
      s.stack_ptr < 12 → NNN < 4096 → fetch s = .ok (0x2000 + NNN) →
      ∃ s1, emulate_instr r1 cfg s = .ok s1 ∧ s1.pc = NNN ∧
        s1.stack_ptr = s.stack_ptr + 1 ∧ s1.stack s.stack_ptr = s.pc + 2 ∧
        (∀ i, i < s.stack_ptr → s1.stack i = s.stack i) ∧
        (has_word s NNN 0x00EE →
          ∃ s2, emulate_instr r2 cfg s1 = .ok s2 ∧ s2.pc = s.pc + 2 ∧
            s2.stack_ptr = s.stack_ptr ∧ ∀ i, i < s.stack_ptr → s2.stack i = s.stack i)) ∧
    (∀ (rv : Nat → Nat) (cfg : config_t) (s : chip8_t) (a : Nat → Nat) (k : Nat),
      s.pc = a 0 → s.stack_ptr + k ≤ 12 →
      (∀ i, i < k → has_word s (a i) (0x2000 + a (i + 1))) →
      has_word s (a k) 0x00EE →
      (∀ i, 1 ≤ i → i < k → has_word s (a i + 2) 0x00EE) →
      (∀ j, j ≤ k → ∃ sj, run rv cfg j s = .ok sj ∧ sj.pc = a j ∧
        sj.stack_ptr = s.stack_ptr + j ∧
        (∀ i, i < j → sj.stack (s.stack_ptr + i) = a i + 2) ∧
        (∀ i, i < s.stack_ptr → sj.stack i = s.stack i)) ∧
      (∀ j, 1 ≤ j → j ≤ k → ∃ sj, run rv cfg (k + j) s = .ok sj ∧
        sj.pc = a (k - j) + 2 ∧ sj.stack_ptr = s.stack_ptr + k - j ∧
        (∀ i, i < s.stack_ptr → sj.stack i = s.stack i))) := by
  constructor
  · intro r1 r2 cfg s NNN hsp hN hf
    have hstep := step_2NNN r1 cfg s NNN hN hf
    rw [if_pos hsp] at hstep
    refine ⟨_, hstep, rfl, rfl, ?_, ?_, ?_⟩
    · show store s.stack s.stack_ptr (s.pc + 2) s.stack_ptr = _
      rw [store_same]
    · intro i hi
      show store s.stack s.stack_ptr (s.pc + 2) i = _
      rw [store_other _ _ _ _ (by omega)]
    · intro hw
      have hf2 := has_word_fetch s
        ({ s with pc := NNN, instr := decode (0x2000 + NNN),
                  stack := store s.stack s.stack_ptr (s.pc + 2),
                  stack_ptr := s.stack_ptr + 1 } : chip8_t) NNN 0x00EE hw rfl rfl
      have hstep2 := step_00EE r2 cfg _ hf2
      rw [if_neg (by simp), if_pos (by simp only [Nat.add_sub_cancel]; omega)] at hstep2
      refine ⟨_, hstep2, ?_, ?_, ?_⟩
      · show store s.stack s.stack_ptr (s.pc + 2) (s.stack_ptr + 1 - 1) = _
        rw [Nat.add_sub_cancel, store_same]
      · show s.stack_ptr + 1 - 1 = _
        omega
      · intro i hi
        show store s.stack s.stack_ptr (s.pc + 2) i = _
        rw [store_other _ _ _ _ (by omega)]
  · intro rv cfg s a k h0 hsp hcall hret hrets
    constructor
    · intro j hj
      obtain ⟨sj, h1, h2, h3, h4, h5, _⟩ :=
        calls_phase rv cfg s a k h0 hsp hcall (by have := has_word_lt s _ _ hret; omega) j hj
      exact ⟨sj, h1, h2, h3, h4, h5⟩
    · intro j hj1 hj
      obtain ⟨sj, h1, h2, h3, _, h5, _⟩ := returns_phase rv cfg s a k h0 hsp hcall hret hrets j hj
      rw [if_neg (by omega)] at h2
      exact ⟨sj, h1, h2, h3, h5⟩


/-- Witness of C9: `2300` at `0x200` followed by `00EE` at `0x300` returns to
`0x202` with an empty stack; with the calls `0x200: 2300`, `0x300: 2400` and the
returns at `0x400` and `0x302`, the first return goes to `0x302` and the second to
`0x202`. -/
theorem C9_call_return_witness :
    (∃ s1 s2, emulate_instr 0 default_config machine_call = .ok s1 ∧ s1.pc = 0x300 ∧
      s1.stack_ptr = 1 ∧ s1.stack 0 = 0x202 ∧
      emulate_instr 0 default_config s1 = .ok s2 ∧ s2.pc = 0x202 ∧ s2.stack_ptr = 0) ∧
    (∃ s3 s4, run (fun _ => 0) default_config 3 machine_nested = .ok s3 ∧ s3.pc = 0x302 ∧
      s3.stack_ptr = 1 ∧
      run (fun _ => 0) default_config 4 machine_nested = .ok s4 ∧ s4.pc = 0x202 ∧
      s4.stack_ptr = 0) := by
  constructor
  · obtain ⟨s1, h1, h2, h3, h4, _, h6⟩ :=
      C9_call_return.1 0 0 default_config machine_call 0x300 (by decide) (by decide) rfl
    obtain ⟨s2, h7, h8, h9, _⟩ := h6 rfl
    exact ⟨s1, s2, h1, h2, h3, h4, h7, h8, h9⟩
  · have h := (C9_call_return.2 (fun _ => 0) default_config machine_nested call_sites 2 rfl
      (by decide) (by intro i hi; interval_cases i <;> rfl) rfl
      (by intro i h1 h2; interval_cases i; rfl)).2
    obtain ⟨s3, h3, h3p, h3s, _⟩ := h 1 (by decide) (by decide)
    obtain ⟨s4, h4, h4p, h4s, _⟩ := h 2 (by decide) (by decide)
    exact ⟨s3, s4, h3, h3p, h3s, h4, h4p, h4s⟩

/-- No step of `emulate_instr` writes the run state. -/
theorem emulate_instr_state (r : Nat) (cfg : config_t) (s s1 : chip8_t)
    (h : emulate_instr r cfg s = .ok s1) : s1.state = s.state := by
  unfold emulate_instr at h
  split at h
  · cases h
  · exact (execute_frame r cfg _ _ h).2.1

/-! ## C10: the stack is not bounds-checked -/

/-- C10 (counterexample): the program `2200` (a call of itself) loaded by
`init_chip8` runs 12 steps and in the 13th stores to `stack[12]`, outside the
array; the program `00EE` reads `stack[-1]` in its first step. Neither ends in a
machine whose run state is `QUIT`. -/
theorem C10_stack_bounds_counterexample :
    init_chip8 chip8_zero (some [0x22, 0x00]) = .ok (loaded chip8_zero [0x22, 0x00]) ∧
    init_chip8 chip8_zero (some [0x00, 0xEE]) = .ok (loaded chip8_zero [0x00, 0xEE]) ∧
    run (fun _ => 0) default_config 13 (loaded chip8_zero [0x22, 0x00]) =
      .error (.stack_index 12) ∧
    emulate_instr 0 default_config (loaded chip8_zero [0x00, 0xEE]) =
      .error (.stack_index (-1)) ∧
    (¬ ∃ s1, run (fun _ => 0) default_config 13 (loaded chip8_zero [0x22, 0x00]) = .ok s1 ∧
      s1.state = .QUIT) ∧
    (¬ ∃ s1, emulate_instr 0 default_config (loaded chip8_zero [0x00, 0xEE]) = .ok s1 ∧
      s1.state = .QUIT) := by
  have h1 : run (fun _ => 0) default_config 13 (loaded chip8_zero [0x22, 0x00]) =
      .error (.stack_index 12) := by rfl
  have h2 : emulate_instr 0 default_config (loaded chip8_zero [0x00, 0xEE]) =
      .error (.stack_index (-1)) := by rfl
  refine ⟨init_chip8_ok _ _ (by decide) (by decide), init_chip8_ok _ _ (by decide) (by decide),
    h1, h2, ?_, ?_⟩
  · rintro ⟨s1, h, _⟩
    rw [h1] at h
    cases h
  · rintro ⟨s1, h, _⟩
    rw [h2] at h
    cases h

/-- C10 (amended): `emulate_instr` has no stack bounds check and no fatal outcome.
`2NNN` with fewer than 12 return addresses on the stack pushes `pc + 2` and
`00EE` with between 1 and 12 pops, both inside the 12 slots and with the run state
unchanged; with 12 or more on the stack `2NNN` stores to `stack[stack_ptr]`
outside the array, and with an empty stack `00EE` reads `stack[-1]`. No defined
step of `emulate_instr` changes the run state. -/
theorem C10_stack_unchecked :
    (∀ (r : Nat) (cfg : config_t) (s : chip8_t) (NNN : Nat),
      NNN < 4096 → fetch s = .ok (0x2000 + NNN) →
      (s.stack_ptr < 12 →
        ∃ s1, emulate_instr r cfg s = .ok s1 ∧ s1.stack_ptr = s.stack_ptr + 1 ∧
          s1.stack s.stack_ptr = s.pc + 2 ∧ s1.pc = NNN ∧ s1.state = s.state) ∧
      (12 ≤ s.stack_ptr → emulate_instr r cfg s = .error (.stack_index s.stack_ptr))) ∧
    (∀ (r : Nat) (cfg : config_t) (s : chip8_t), fetch s = .ok 0x00EE →
      (0 < s.stack_ptr → s.stack_ptr ≤ 12 →
        ∃ s1, emulate_instr r cfg s = .ok s1 ∧ s1.stack_ptr = s.stack_ptr - 1 ∧
          s1.pc = s.stack (s.stack_ptr - 1) ∧ s1.state = s.state) ∧
      (s.stack_ptr = 0 → emulate_instr r cfg s = .error (.stack_index (-1)))) ∧
    (∀ (r : Nat) (cfg : config_t) (s s1 : chip8_t),
      emulate_instr r cfg s = .ok s1 → s1.state = s.state) := by
  refine ⟨?_, ?_, emulate_instr_state⟩
  · intro r cfg s NNN hN hf
    have hstep := step_2NNN r cfg s NNN hN hf
    constructor
    · intro hsp
      rw [if_pos hsp] at hstep
      exact ⟨_, hstep, rfl, store_same _ _ _, rfl, rfl⟩
    · intro hsp
      rw [if_neg (by omega)] at hstep
      exact hstep
  · intro r cfg s hf
    have hstep := step_00EE r cfg s hf
    constructor
    · intro h0 h12
      rw [if_neg (by omega), if_pos (by omega)] at hstep
      exact ⟨_, hstep, rfl, rfl, rfl⟩
    · intro h0
      rw [if_pos h0] at hstep
      exact hstep

/-- Witness of C10: `2300` with 12 addresses on the stack stores to `stack[12]`;
`2300` with an empty stack leaves depth 1 and the run state `RUNNING`; `00EE` on
the freshly loaded machine reads `stack[-1]`. -/
theorem C10_stack_unchecked_witness :
    emulate_instr 0 default_config machine_full_stack = .error (.stack_index 12) ∧
    (∃ s1, emulate_instr 0 default_config machine_call = .ok s1 ∧ s1.stack_ptr = 1 ∧
      s1.state = .RUNNING) ∧
    emulate_instr 0 default_config (loaded chip8_zero [0x00, 0xEE]) =
      .error (.stack_index (-1)) := by
  refine ⟨?_, ?_, ?_⟩
  · exact (C10_stack_unchecked.1 0 default_config machine_full_stack 0x300 (by decide) rfl).2
      (by decide)
  · obtain ⟨s1, h1, h2, _, _, h3⟩ :=
      (C10_stack_unchecked.1 0 default_config machine_call 0x300 (by decide) rfl).1 (by decide)
    exact ⟨s1, h1, h2, h3⟩
  · exact (C10_stack_unchecked.2.1 0 default_config (loaded chip8_zero [0x00, 0xEE]) rfl).2 rfl

/-! ## Steps that change only `pc`, fetches inside and outside the RAM -/

theorem same_data_fetched (s : chip8_t) (w : Nat) : same_data s (fetched s w) :=
  ⟨rfl, rfl, rfl, rfl, rfl, rfl, rfl, rfl, rfl, rfl⟩

theorem same_data_skip (s c : chip8_t) (h : same_data s c) : same_data s (skip c) := h

theorem emulate_instr_fetched (r : Nat) (cfg : config_t) {s : chip8_t} {w : Nat}
    (h : fetch s = .ok w) : emulate_instr r cfg s = execute r cfg (fetched s w) :=
  emulate_instr_of_fetch r cfg h

theorem fetched_top (s : chip8_t) (w : Nat) :
    (fetched s w).instr.opcode >>> 12 = w / 4096 := decode_top w

theorem fetched_X (s : chip8_t) (w : Nat) : (fetched s w).instr.X = w / 256 % 16 :=
  decode_X w

theorem fetched_Y (s : chip8_t) (w : Nat) : (fetched s w).instr.Y = w / 16 % 16 :=
  decode_Y w

theorem fetched_N (s : chip8_t) (w : Nat) : (fetched s w).instr.N = w % 16 := decode_N w

theorem fetched_NN (s : chip8_t) (w : Nat) : (fetched s w).instr.NN = w % 256 := decode_NN w

theorem fetched_NNN (s : chip8_t) (w : Nat) : (fetched s w).instr.NNN = w % 4096 :=
  decode_NNN w

theorem skip_pc (s : chip8_t) (w : Nat) (h : s.pc + 1 < 4096) :
    (skip (fetched s w)).pc = s.pc + 4 := by
  show (s.pc + 2 + 2) % 65536 = s.pc + 4
  omega

theorem skip_result (s : chip8_t) (w : Nat) (h : s.pc + 1 < 4096) :
    ∃ s1, (Except.ok (skip (fetched s w)) : Except Undefined chip8_t) = .ok s1 ∧
      s1.pc = s.pc + 4 ∧ same_data s s1 :=
  ⟨skip (fetched s w), rfl, skip_pc s w h, same_data_fetched s w⟩

theorem noskip_result (s : chip8_t) (w : Nat) :
    ∃ s1, (Except.ok (fetched s w) : Except Undefined chip8_t) = .ok s1 ∧
      s1.pc = s.pc + 2 ∧ same_data s s1 :=
  ⟨fetched s w, rfl, rfl, same_data_fetched s w⟩

theorem execute_3 (r : Nat) (cfg : config_t) (c : chip8_t) (h : c.instr.opcode >>> 12 = 3) :
    execute r cfg c = .ok (if c.V c.instr.X = c.instr.NN then skip c else c) := by
  unfold execute
  rw [h]

theorem execute_4 (r : Nat) (cfg : config_t) (c : chip8_t) (h : c.instr.opcode >>> 12 = 4) :
    execute r cfg c = .ok (if c.V c.instr.X ≠ c.instr.NN then skip c else c) := by
  unfold execute
  rw [h]

theorem execute_5 (r : Nat) (cfg : config_t) (c : chip8_t) (h : c.instr.opcode >>> 12 = 5) :
    execute r cfg c =
      if c.instr.N ≠ 0 then .ok c
      else .ok (if c.V c.instr.X = c.V c.instr.Y then skip c else c) := by
  unfold execute
  rw [h]

theorem execute_9 (r : Nat) (cfg : config_t) (c : chip8_t) (h : c.instr.opcode >>> 12 = 9) :
    execute r cfg c = .ok (case_0x09 c) := by
  unfold execute
  rw [h]

theorem fetch_outside (s : chip8_t) (h : 4096 ≤ s.pc + 1) :
    fetch s = .error (.ram_index (if s.pc < 4096 then s.pc + 1 else s.pc)) := by
  unfold fetch RAM_SIZE
  by_cases hp : s.pc < 4096
  · rw [if_pos hp, if_neg (by omega), if_pos hp]
  · rw [if_neg hp, if_neg hp]

theorem fetch_inside (s : chip8_t) (h : s.pc + 1 < 4096) : ∃ w, fetch s = .ok w := by
  unfold fetch RAM_SIZE
  rw [if_pos (by omega), if_pos h]
  exact ⟨_, rfl⟩

theorem emulate_instr_fetch_error (r : Nat) (cfg : config_t) (s : chip8_t) (e : Undefined)
    (h : fetch s = .error e) : emulate_instr r cfg s = .error e := by
  unfold emulate_instr
  rw [h]

/-! ## C11, C12: waiting for a key -/

theorem same_data_refl (s : chip8_t) : same_data s s :=
  ⟨rfl, rfl, rfl, rfl, rfl, rfl, rfl, rfl, rfl, rfl⟩

theorem same_data_trans (s a b : chip8_t) (h1 : same_data s a) (h2 : same_data a b) :
    same_data s b := by
  obtain ⟨a1, a2, a3, a4, a5, a6, a7, a8, a9, a10⟩ := h1
  obtain ⟨b1, b2, b3, b4, b5, b6, b7, b8, b9, b10⟩ := h2
  exact ⟨b1.trans a1, b2.trans a2, b3.trans a3, b4.trans a4, b5.trans a5, b6.trans a6,
    b7.trans a7, b8.trans a8, b9.trans a9, b10.trans a10⟩

/-- Key scan when none of the keys `i .. i+n-1` is pressed. -/
theorem wait_key_none : ∀ (n i : Nat) (c : chip8_t),
    (∀ k, i ≤ k → k < i + n → c.keypad k = false) → wait_key n i c = (c, false) := by
  intro n
  induction n with
  | zero => intro i c _; rfl
  | succ n ih =>
    intro i c h
    rw [wait_key, if_neg (by rw [h i (Nat.le_refl i) (by omega)]; decide)]
    exact ih (i + 1) c (fun k h1 h2 => h k (by omega) (by omega))

/-- Key scan when one of the keys `i .. i+n-1` is pressed: `VX` receives the value
of the flag `keypad[k]`, which is 1. -/
theorem wait_key_some : ∀ (n i : Nat) (c : chip8_t),
    (∃ k, i ≤ k ∧ k < i + n ∧ c.keypad k = true) →
    wait_key n i c = ({ c with V := store c.V c.instr.X 1 }, true) := by
  intro n
  induction n with
  | zero =>
    rintro i c ⟨k, h1, h2, _⟩
    omega
  | succ n ih =>
    rintro i c ⟨k, h1, h2, h3⟩
    rw [wait_key]
    by_cases hi : c.keypad i = true
    · rw [if_pos hi, if_pos hi]
    · rw [if_neg hi]
      apply ih
      refine ⟨k, ?_, by omega, h3⟩
      by_contra hlt
      have : k = i := by omega
      rw [this] at h3
      exact hi h3

theorem execute_F0A (r : Nat) (cfg : config_t) (c : chip8_t) (h : c.instr.opcode >>> 12 = 0xF)
    (hNN : c.instr.NN = 0x0A) :
    execute r cfg c =
      if (wait_key KEYPAD_SIZE 0 c).2 = false then
        .ok { (wait_key KEYPAD_SIZE 0 c).1 with
              pc := to_u16 (((wait_key KEYPAD_SIZE 0 c).1.pc : Int) - 2) }
      else .ok (wait_key KEYPAD_SIZE 0 c).1 := by
  unfold execute
  rw [h]
  simp only [hNN]

/-- One step of `FX0A` with no key pressed. -/
theorem step_FX0A_none (r : Nat) (cfg : config_t) (s : chip8_t) (X : Nat) (hX : X < 16)
    (hf : fetch s = .ok (0xF00A + X * 256)) (hk : ∀ i, i < 16 → s.keypad i = false) :
    ∃ s1, emulate_instr r cfg s = .ok s1 ∧ s1.pc = s.pc ∧ same_data s s1 := by
  have hpc := (fetch_ok hf).1
  have hw : wait_key KEYPAD_SIZE 0 (fetched s (0xF00A + X * 256)) =
      (fetched s (0xF00A + X * 256), false) :=
    wait_key_none _ _ _ (fun k _ h2 => hk k (by unfold KEYPAD_SIZE at h2; omega))
  rw [emulate_instr_fetched r cfg hf,
    execute_F0A _ _ _ (by rw [fetched_top]; omega) (by rw [fetched_NN]; omega), hw,
    if_pos rfl]
  refine ⟨_, rfl, ?_, same_data_fetched s (0xF00A + X * 256)⟩
  show to_u16 (((s.pc + 2 : Nat) : Int) - 2) = s.pc
  unfold to_u16
  omega

/-- One step of `FX0A` with a key pressed: `VX` becomes 1 whatever the key. -/
theorem step_FX0A_some (r : Nat) (cfg : config_t) (s : chip8_t) (X : Nat) (hX : X < 16)
    (hf : fetch s = .ok (0xF00A + X * 256)) (hk : ∃ k, k < 16 ∧ s.keypad k = true) :
    ∃ s1, emulate_instr r cfg s = .ok s1 ∧ s1.V X = 1 ∧ s1.pc = s.pc + 2 ∧
      ∀ k, k ≠ X → s1.V k = s.V k := by
  obtain ⟨k, hk1, hk2⟩ := hk
  have hw := wait_key_some KEYPAD_SIZE 0 (fetched s (0xF00A + X * 256))
    ⟨k, Nat.zero_le k, by unfold KEYPAD_SIZE; omega, hk2⟩
  rw [fetched_X] at hw
  have hx : (0xF00A + X * 256) / 256 % 16 = X := by omega
  rw [hx] at hw
  rw [emulate_instr_fetched r cfg hf,
    execute_F0A _ _ _ (by rw [fetched_top]; omega) (by rw [fetched_NN]; omega), hw,
    if_neg (fun h => Bool.noConfusion h)]
  exact ⟨_, rfl, store_same _ _ _, rfl, fun k hk => store_other _ _ _ _ hk⟩

/-- C11: when no keypad flag is set and the word at `pc` is `FX0A`, one call of
`emulate_instr` leaves `pc` at its value before the call and leaves registers, `I`,
timers, stack, display, keypad, RAM and run state unchanged; hence after any
number of steps `pc` is unchanged and the same word `FX0A` is fetched again. -/
theorem C11_wait_key_blocks (r : Nat) (rv : Nat → Nat) (cfg : config_t) (s : chip8_t)
    (X : Nat) (hX : X < 16) (hf : fetch s = .ok (0xF00A + X * 256))
    (hk : ∀ i, i < 16 → s.keypad i = false) :
    (∃ s1, emulate_instr r cfg s = .ok s1 ∧ s1.pc = s.pc ∧ same_data s s1) ∧
    (∀ n, ∃ sn, run rv cfg n s = .ok sn ∧ sn.pc = s.pc ∧ same_data s sn ∧
      fetch sn = .ok (0xF00A + X * 256)) := by
  refine ⟨step_FX0A_none r cfg s X hX hf hk, ?_⟩
  intro n
  induction n with
  | zero => exact ⟨s, rfl, rfl, same_data_refl s, hf⟩
  | succ n ih =>
    obtain ⟨sn, hrun, hpc, hsame, hfn⟩ := ih
    have hkn : ∀ i, i < 16 → sn.keypad i = false := by
      intro i hi
      rw [hsame.2.2.2.2.2.2.2.1]
      exact hk i hi
    obtain ⟨s1, h1, hpc1, hsame1⟩ := step_FX0A_none (rv n) cfg sn X hX hfn hkn
    refine ⟨s1, (run_succ rv cfg n s sn hrun).trans h1, hpc1.trans hpc,
      same_data_trans s sn s1 hsame hsame1, ?_⟩
    rw [← hfn]
    exact fetch_congr sn s1 hpc1 hsame1.2.2.2.2.2.2.2.2.1

/-- Witness of C11: five steps of `F00A` at `0x200` with no key pressed leave
`pc = 0x200` and `V0 = 0`. -/
theorem C11_wait_key_blocks_witness :
    ∃ s5, run (fun _ => 0) default_config 5 machine_no_key = .ok s5 ∧ s5.pc = 0x200 ∧
      s5.V 0 = 0 := by
  obtain ⟨s5, h, hp, hs, _⟩ := (C11_wait_key_blocks 0 (fun _ => 0) default_config
    machine_no_key 0 (by decide) rfl (fun _ _ => rfl)).2 5
  exact ⟨s5, h, hp, by rw [hs.1]; rfl⟩

/-- C12 (code at the failing input): with only the key `0xA` pressed, `F00A`
advances `pc` to `0x202` but leaves `V0 = 1`, the value of the flag `keypad[0xA]`,
where the index of the key is `0x0A`. -/
theorem C12_wait_key_stores_flag :
    machine_key_A.keypad 0xA = true ∧
    ∃ s1, emulate_instr 0 default_config machine_key_A = .ok s1 ∧ s1.V 0 = 1 ∧
      s1.pc = 0x202 := by
  refine ⟨rfl, ?_⟩
  obtain ⟨s1, h1, h2⟩ := exists_ok_of_map
    (emulate_instr 0 default_config machine_key_A) (fun s => (s.V 0, s.pc)) (1, 0x202)
    (by decide)
  simp only [Prod.mk.injEq] at h2
  exact ⟨s1, h1, h2.1, h2.2⟩

/-! ## C13, C14: `FX33`, `FX55`, `FX65`

The three cases of the inner switch of `case 0x0F` have no statement before their
`break`. -/

/-- No step of `emulate_instr` writes the RAM. -/
theorem emulate_instr_ram (r : Nat) (cfg : config_t) (s s1 : chip8_t)
    (h : emulate_instr r cfg s = .ok s1) : s1.ram = s.ram := by
  unfold emulate_instr at h
  split at h
  · cases h
  · exact (execute_frame r cfg _ _ h).2.2.1

theorem execute_F_empty (r : Nat) (cfg : config_t) (c : chip8_t)
    (h : c.instr.opcode >>> 12 = 0xF)
    (hNN : c.instr.NN = 0x33 ∨ c.instr.NN = 0x55 ∨ c.instr.NN = 0x65) :
    execute r cfg c = .ok c := by
  unfold execute
  rw [h]
  rcases hNN with h1 | h1 | h1 <;> simp only [h1]

/-- One step of `FX33`, `FX55` or `FX65`: only `pc` and `instr` change. -/
theorem step_FX_empty (r : Nat) (cfg : config_t) (s : chip8_t) (X NN : Nat) (hX : X < 16)
    (hNN : NN = 0x33 ∨ NN = 0x55 ∨ NN = 0x65) (hf : fetch s = .ok (0xF000 + X * 256 + NN)) :
    ∃ s1, emulate_instr r cfg s = .ok s1 ∧ s1.pc = s.pc + 2 ∧ same_data s s1 := by
  rw [emulate_instr_fetched r cfg hf,
    execute_F_empty _ _ _ (by rw [fetched_top]; omega) (by rw [fetched_NN]; omega)]
  exact noskip_result s _

/-- C13 (code at the failing input): `F033` with `V0 = 254` and `I = 0x300` leaves
`ram[0x300..0x302] = 0, 0, 0`; the digits 2, 5, 4 are not stored. -/
theorem C13_bcd_not_stored :
    machine_bcd.V 0 = 254 ∧ machine_bcd.I = 0x300 ∧
    ∃ s1, emulate_instr 0 default_config machine_bcd = .ok s1 ∧
      s1.ram 0x300 = 0 ∧ s1.ram 0x301 = 0 ∧ s1.ram 0x302 = 0 := by
  refine ⟨rfl, rfl, ?_⟩
  obtain ⟨s1, h1, h2⟩ := exists_ok_of_map
    (emulate_instr 0 default_config machine_bcd)
    (fun s => (s.ram 0x300, s.ram 0x301, s.ram 0x302)) (0, 0, 0) (by decide)
  simp only [Prod.mk.injEq] at h2
  exact ⟨s1, h1, h2.1, h2.2.1, h2.2.2⟩

/-- C14 (code at the failing inputs): `F155` with `V0 = 7`, `V1 = 9`, `I = 0x300`
leaves `ram[0x300] = ram[0x301] = 0`; `F165` with `ram[0x300..0x301] = 7, 9` and
`I = 0x300` leaves `V0 = V1 = 0`: nothing is dumped and nothing is loaded. -/
theorem C14_dump_load_not_done :
    (machine_dump.V 0 = 7 ∧ machine_dump.V 1 = 9 ∧
      ∃ s1, emulate_instr 0 default_config machine_dump = .ok s1 ∧
        s1.ram 0x300 = 0 ∧ s1.ram 0x301 = 0) ∧
    (machine_restore.ram 0x300 = 7 ∧ machine_restore.ram 0x301 = 9 ∧
      ∃ s1, emulate_instr 0 default_config machine_restore = .ok s1 ∧
        s1.V 0 = 0 ∧ s1.V 1 = 0) := by
  refine ⟨⟨rfl, rfl, ?_⟩, ⟨rfl, rfl, ?_⟩⟩
  · obtain ⟨s1, h1, h2⟩ := exists_ok_of_map
      (emulate_instr 0 default_config machine_dump)
      (fun s => (s.ram 0x300, s.ram 0x301)) (0, 0) (by decide)
    simp only [Prod.mk.injEq] at h2
    exact ⟨s1, h1, h2.1, h2.2⟩
  · obtain ⟨s1, h1, h2⟩ := exists_ok_of_map
      (emulate_instr 0 default_config machine_restore)
      (fun s => (s.V 0, s.V 1)) (0, 0) (by decide)
    simp only [Prod.mk.injEq] at h2
    exact ⟨s1, h1, h2.1, h2.2⟩

/-! ## C15: words that match no instruction -/

theorem execute_0_other (r : Nat) (cfg : config_t) (c : chip8_t)
    (h : c.instr.opcode >>> 12 = 0) (h1 : c.instr.NN ≠ 0xE0) (h2 : c.instr.NN ≠ 0xEE) :
    execute r cfg c = .ok c := by
  unfold execute
  rw [h]
  simp only [h1, h2, if_false]

theorem execute_0_clear (r : Nat) (cfg : config_t) (c : chip8_t)
    (h : c.instr.opcode >>> 12 = 0) (h1 : c.instr.NN = 0xE0) :
    execute r cfg c = .ok { c with display := fun _ => false } := by
  unfold execute
  rw [h]
  simp only [h1, if_true]

theorem execute_5_other (r : Nat) (cfg : config_t) (c : chip8_t)
    (h : c.instr.opcode >>> 12 = 5) (h1 : c.instr.N ≠ 0) : execute r cfg c = .ok c := by
  rw [execute_5 r cfg c h, if_pos h1]

theorem execute_9_other (r : Nat) (cfg : config_t) (c : chip8_t)
    (h : c.instr.opcode >>> 12 = 9) (h1 : c.instr.N ≠ 0) : execute r cfg c = .ok c := by
  rw [execute_9 r cfg c h, case_0x09_of_N c h1]

theorem alu_other (c : chip8_t) (h : (8 ≤ c.instr.N ∧ c.instr.N ≤ 13) ∨ c.instr.N = 15) :
    alu c = c := by
  unfold alu
  split <;> first | rfl | omega

theorem execute_8_other (r : Nat) (cfg : config_t) (c : chip8_t)
    (h : c.instr.opcode >>> 12 = 8)
    (h1 : (8 ≤ c.instr.N ∧ c.instr.N ≤ 13) ∨ c.instr.N = 15) : execute r cfg c = .ok c := by
  rw [execute_8 r cfg c h, alu_other c h1, case_0x09_of_N c (by omega)]

theorem execute_E_other (r : Nat) (cfg : config_t) (c : chip8_t)
    (h : c.instr.opcode >>> 12 = 0xE) (h1 : c.instr.NN ≠ 0x9E) (h2 : c.instr.NN ≠ 0xA1) :
    execute r cfg c = .ok c := by
  unfold execute
  rw [h]
  simp only [h1, h2, if_false]

theorem execute_F_other (r : Nat) (cfg : config_t) (c : chip8_t)
    (h : c.instr.opcode >>> 12 = 0xF)
    (h1 : c.instr.NN ≠ 0x07 ∧ c.instr.NN ≠ 0x0A ∧ c.instr.NN ≠ 0x15 ∧ c.instr.NN ≠ 0x18 ∧
      c.instr.NN ≠ 0x1E ∧ c.instr.NN ≠ 0x29) : execute r cfg c = .ok c := by
  unfold execute
  rw [h]
  dsimp only
  split <;> first | rfl | omega

/-- Words that `emulate_instr` executes as a no-op: only `pc` (advanced by 2) and
`instr` change. These are the words that match none of the 35 instructions,
except the words `0XE0` and `0XEE` with `X != 0`. -/
theorem unmatched_word_noop (r : Nat) (cfg : config_t) (s : chip8_t) (w : Nat)
    (hf : fetch s = .ok w)
    (h : (w / 4096 = 0 ∧ w % 256 ≠ 0xE0 ∧ w % 256 ≠ 0xEE) ∨
      (w / 4096 = 5 ∧ w % 16 ≠ 0) ∨ (w / 4096 = 9 ∧ w % 16 ≠ 0) ∨
      (w / 4096 = 8 ∧ ((8 ≤ w % 16 ∧ w % 16 ≤ 13) ∨ w % 16 = 15)) ∨
      (w / 4096 = 0xE ∧ w % 256 ≠ 0x9E ∧ w % 256 ≠ 0xA1) ∨
      (w / 4096 = 0xF ∧ w % 256 ≠ 0x07 ∧ w % 256 ≠ 0x0A ∧ w % 256 ≠ 0x15 ∧
        w % 256 ≠ 0x18 ∧ w % 256 ≠ 0x1E ∧ w % 256 ≠ 0x29)) :
    ∃ s1, emulate_instr r cfg s = .ok s1 ∧ s1.pc = s.pc + 2 ∧ same_data s s1 := by
  have hx : execute r cfg (fetched s w) = .ok (fetched s w) := by
    rcases h with h | h | h | h | h | h
    · exact execute_0_other _ _ _ (by rw [fetched_top]; exact h.1)
        (by rw [fetched_NN]; exact h.2.1) (by rw [fetched_NN]; exact h.2.2)
    · exact execute_5_other _ _ _ (by rw [fetched_top]; exact h.1)
        (by rw [fetched_N]; exact h.2)
    · exact execute_9_other _ _ _ (by rw [fetched_top]; exact h.1)
        (by rw [fetched_N]; exact h.2)
    · exact execute_8_other _ _ _ (by rw [fetched_top]; exact h.1)
        (by rw [fetched_N]; exact h.2)
    · exact execute_E_other _ _ _ (by rw [fetched_top]; exact h.1)
        (by rw [fetched_NN]; exact h.2.1) (by rw [fetched_NN]; exact h.2.2)
    · exact execute_F_other _ _ _ (by rw [fetched_top]; exact h.1)
        (by rw [fetched_NN]; exact h.2)
  rw [emulate_instr_fetched r cfg hf, hx]
  exact noskip_result s w

/-- C15 (code at the failing inputs): `case 0x00` tests only the low byte of the
word. The word `01E0`, which is not `00E0`, clears the display (pixel 5, set
before, is clear after), and the word `01EE`, which is not `00EE`, pops the
stack: with an empty stack it reads `stack[-1]`. -/
theorem C15_0XE0_0XEE_are_executed :
    (machine_01E0.display 5 = true ∧
      ∃ s1, emulate_instr 0 default_config machine_01E0 = .ok s1 ∧ s1.display 5 = false) ∧
    emulate_instr 0 default_config machine_01EE = .error (.stack_index (-1)) := by
  refine ⟨⟨rfl, ?_⟩, rfl⟩
  obtain ⟨s1, h1, h2⟩ := exists_ok_of_map
    (emulate_instr 0 default_config machine_01E0) (fun s => s.display 5) false (by decide)
  exact ⟨s1, h1, h2⟩

/-! ## C16: the timers -/

theorem case_0x09_timers (c : chip8_t) : (case_0x09 c).delay_timer = c.delay_timer ∧
    (case_0x09 c).sound_timer = c.sound_timer := by
  unfold case_0x09
  split
  · exact ⟨rfl, rfl⟩
  · split <;> exact ⟨rfl, rfl⟩

theorem alu_timers (c : chip8_t) : (alu c).delay_timer = c.delay_timer ∧
    (alu c).sound_timer = c.sound_timer := by
  unfold alu
  split <;> exact ⟨rfl, rfl⟩

theorem draw_bits_timers (cfg : config_t) (d y : Nat) :
    ∀ (n x : Nat) (c c1 : chip8_t), draw_bits cfg d y n x c = .ok c1 →
      c1.delay_timer = c.delay_timer ∧ c1.sound_timer = c.sound_timer := by
  intro n
  induction n with
  | zero =>
    intro x c c1 h
    simp only [draw_bits] at h
    cases h
    exact ⟨rfl, rfl⟩
  | succ j ih =>
    intro x c c1 h
    simp only [draw_bits] at h
    split at h
    · split at h
      · cases h
        split <;> exact ⟨rfl, rfl⟩
      · have := ih _ _ _ h
        revert this
        split <;> exact id
    · cases h

theorem draw_rows_timers (cfg : config_t) (ox : Nat) :
    ∀ (n i y : Nat) (c c1 : chip8_t), draw_rows cfg ox n i y c = .ok c1 →
      c1.delay_timer = c.delay_timer ∧ c1.sound_timer = c.sound_timer := by
  intro n
  induction n with
  | zero =>
    intro i y c c1 h
    simp only [draw_rows] at h
    cases h
    exact ⟨rfl, rfl⟩
  | succ n ih =>
    intro i y c c1 h
    simp only [draw_rows] at h
    split at h
    · split at h
      · cases h
      · rename_i c2 hb
        have h2 := draw_bits_timers cfg _ _ _ _ _ _ hb
        split at h
        · cases h
          exact h2
        · have h3 := ih _ _ _ _ h
          exact ⟨h3.1.trans h2.1, h3.2.trans h2.2⟩
    · cases h

theorem draw_timers (cfg : config_t) (c c1 : chip8_t) (h : draw cfg c = .ok c1) :
    c1.delay_timer = c.delay_timer ∧ c1.sound_timer = c.sound_timer := by
  unfold draw at h
  split at h
  · cases h
  · have h1 := draw_rows_timers cfg _ _ _ _ _ _ h
    exact h1

theorem wait_key_timers : ∀ (n i : Nat) (c : chip8_t),
    (wait_key n i c).1.delay_timer = c.delay_timer ∧
    (wait_key n i c).1.sound_timer = c.sound_timer := by
  intro n
  induction n with
  | zero => intro i c; exact ⟨rfl, rfl⟩
  | succ n ih =>
    intro i c
    simp only [wait_key]
    split
    · exact ⟨rfl, rfl⟩
    · exact ih _ _

/-- The timers after the switch: `delay_timer` is written by `FX15` only and
`sound_timer` by `FX18` only, both with the value of `VX`. -/
theorem execute_timers (r : Nat) (cfg : config_t) (c c1 : chip8_t)
    (h : execute r cfg c = .ok c1) :
    (c1.delay_timer = c.delay_timer ∨
      (c.instr.opcode >>> 12 = 0xF ∧ c.instr.NN = 0x15 ∧ c1.delay_timer = c.V c.instr.X)) ∧
    (c1.sound_timer = c.sound_timer ∨
      (c.instr.opcode >>> 12 = 0xF ∧ c.instr.NN = 0x18 ∧ c1.sound_timer = c.V c.instr.X)) := by
  unfold execute at h
  split at h
  case h_9 =>
    cases h
    have h1 := case_0x09_timers (alu c)
    have h2 := alu_timers c
    exact ⟨Or.inl (h1.1.trans h2.1), Or.inl (h1.2.trans h2.2)⟩
  case h_10 =>
    cases h
    exact ⟨Or.inl (case_0x09_timers c).1, Or.inl (case_0x09_timers c).2⟩
  case h_14 =>
    have h1 := draw_timers cfg c c1 h
    exact ⟨Or.inl h1.1, Or.inl h1.2⟩
  case h_16 =>
    rename_i htop
    have hw := wait_key_timers KEYPAD_SIZE 0 c
    split at h
    case h_2 =>
      split at h <;> cases h <;> exact ⟨Or.inl hw.1, Or.inl hw.2⟩
    case h_3 =>
      rename_i hNN
      cases h
      exact ⟨Or.inr ⟨htop, hNN, rfl⟩, Or.inl rfl⟩
    case h_4 =>
      rename_i hNN
      cases h
      exact ⟨Or.inl rfl, Or.inr ⟨htop, hNN, rfl⟩⟩
    all_goals (cases h; exact ⟨Or.inl rfl, Or.inl rfl⟩)
  all_goals repeat' split at h
  all_goals first
    | (cases h; done)
    | (cases h; exact ⟨Or.inl rfl, Or.inl rfl⟩)


theorem set_key_frame (c : chip8_t) (sym : SDL_Keycode) (v : Bool) :
    (set_key c sym v).delay_timer = c.delay_timer ∧
    (set_key c sym v).sound_timer = c.sound_timer ∧ (set_key c sym v).ram = c.ram ∧
    (set_key c sym v).pc = c.pc ∧ (set_key c sym v).V = c.V := by
  unfold set_key
  split <;> exact ⟨rfl, rfl, rfl, rfl, rfl⟩

/-- The function `handle_input` writes neither the timers, nor the RAM, the program
counter or the registers. -/
theorem handle_input_frame : ∀ (queue : List SDL_Event) (c : chip8_t),
    (handle_input c queue).1.delay_timer = c.delay_timer ∧
    (handle_input c queue).1.sound_timer = c.sound_timer ∧
    (handle_input c queue).1.ram = c.ram ∧ (handle_input c queue).1.pc = c.pc ∧
    (handle_input c queue).1.V = c.V := by
  intro queue
  induction queue with
  | nil => intro c; exact ⟨rfl, rfl, rfl, rfl, rfl⟩
  | cons event queue ih =>
    intro c
    cases event with
    | SDL_QUIT => exact ⟨rfl, rfl, rfl, rfl, rfl⟩
    | other => exact ih c
    | SDL_KEYUP sym =>
      have h1 := ih (set_key c sym false)
      have h2 := set_key_frame c sym false
      rw [h2.1, h2.2.1, h2.2.2.1, h2.2.2.2.1, h2.2.2.2.2] at h1
      exact h1
    | SDL_KEYDOWN sym =>
      have h1 := ih (set_key c sym true)
      have h2 := set_key_frame c sym true
      rw [h2.1, h2.2.1, h2.2.2.1, h2.2.2.2.1, h2.2.2.2.2] at h1
      cases sym
      case SDLK_ESCAPE => exact ⟨rfl, rfl, rfl, rfl, rfl⟩
      case SDLK_SPACE =>
        simp only [handle_input]
        split <;> exact ⟨rfl, rfl, rfl, rfl, rfl⟩
      all_goals exact h1


theorem has_word_congr (s s1 : chip8_t) (a w : Nat) (hram : s1.ram = s.ram)
    (h : has_word s1 a w) : has_word s a w := by
  unfold has_word at h ⊢
  rw [← h]
  exact fetch_congr _ _ rfl hram.symm

theorem fetch_lt {s : chip8_t} {w : Nat} (h : fetch s = .ok w) : w < 65536 := by
  rw [(fetch_ok h).2]
  exact Nat.mod_lt _ (by decide)

/-- The timers after one call of `emulate_instr`. -/
theorem emulate_instr_timers (r : Nat) (cfg : config_t) (s s1 : chip8_t)
    (h : emulate_instr r cfg s = .ok s1) :
    (s1.delay_timer = s.delay_timer ∨
      ∃ X, X < 16 ∧ has_word s s.pc (0xF015 + X * 256) ∧ s1.delay_timer = s.V X) ∧
    (s1.sound_timer = s.sound_timer ∨
      ∃ X, X < 16 ∧ has_word s s.pc (0xF018 + X * 256) ∧ s1.sound_timer = s.V X) := by
  cases hfe : fetch s with
  | error e =>
    rw [emulate_instr_fetch_error r cfg s e hfe] at h
    cases h
  | ok w =>
    rw [emulate_instr_fetched r cfg hfe] at h
    have hlt := fetch_lt hfe
    obtain ⟨hd, hs⟩ := execute_timers r cfg _ _ h
    rw [fetched_top, fetched_NN, fetched_X] at hd hs
    constructor
    · rcases hd with hd | ⟨h1, h2, h3⟩
      · exact Or.inl hd
      · refine Or.inr ⟨w / 256 % 16, Nat.mod_lt _ (by decide), ?_, h3⟩
        show fetch s = _
        rw [hfe]
        congr 1
        omega
    · rcases hs with hs | ⟨h1, h2, h3⟩
      · exact Or.inl hs
      · refine Or.inr ⟨w / 256 % 16, Nat.mod_lt _ (by decide), ?_, h3⟩
        show fetch s = _
        rw [hfe]
        congr 1
        omega

/-- The timers and the RAM after one iteration of the loop of `main`. -/
theorem main_iteration_timers (r : Nat) (cfg : config_t) (c : chip8_t)
    (q : List SDL_Event) (p : chip8_t × List SDL_Event)
    (h : main_iteration r cfg c q = .ok p) :
    (p.1.delay_timer = c.delay_timer ∨
      ∃ X, X < 16 ∧ has_word c c.pc (0xF015 + X * 256) ∧ p.1.delay_timer = c.V X) ∧
    (p.1.sound_timer = c.sound_timer ∨
      ∃ X, X < 16 ∧ has_word c c.pc (0xF018 + X * 256) ∧ p.1.sound_timer = c.V X) ∧
    p.1.ram = c.ram := by
  obtain ⟨f1, f2, f3, f4, f5⟩ := handle_input_frame q c
  unfold main_iteration at h
  split at h
  · cases h
    exact ⟨Or.inl f1, Or.inl f2, f3⟩
  · split at h
    · cases h
    · rename_i c2 he
      cases h
      obtain ⟨hd, hs⟩ := emulate_instr_timers r cfg _ _ he
      rw [f1, f4, f5] at hd
      rw [f2, f4, f5] at hs
      refine ⟨?_, ?_, (emulate_instr_ram r cfg _ _ he).trans f3⟩
      · rcases hd with hd | ⟨X, hX, hw, hv⟩
        · exact Or.inl hd
        · exact Or.inr ⟨X, hX, has_word_congr c _ _ _ f3 hw, hv⟩
      · rcases hs with hs | ⟨X, hX, hw, hv⟩
        · exact Or.inl hs
        · exact Or.inr ⟨X, hX, has_word_congr c _ _ _ f3 hw, hv⟩

/-- The timers after `n` iterations of the loop of `main` when the RAM holds no
word `FX15`, respectively no word `FX18`. -/
theorem main_loop_timers (rv : Nat → Nat) (cfg : config_t) (arr : Nat → List SDL_Event)
    (c : chip8_t) (q : List SDL_Event) :
    ∀ (n : Nat) (p : chip8_t × List SDL_Event), main_loop rv cfg arr n c q = .ok p →
      p.1.ram = c.ram ∧
      ((∀ a X, X < 16 → ¬ has_word c a (0xF015 + X * 256)) →
        p.1.delay_timer = c.delay_timer) ∧
      ((∀ a X, X < 16 → ¬ has_word c a (0xF018 + X * 256)) →
        p.1.sound_timer = c.sound_timer) := by
  intro n
  induction n with
  | zero =>
    intro p h
    simp only [main_loop] at h
    cases h
    exact ⟨rfl, fun _ => rfl, fun _ => rfl⟩
  | succ n ih =>
    intro p h
    simp only [main_loop] at h
    split at h
    · cases h
    · rename_i p0 h0
      obtain ⟨hram, hd, hs⟩ := ih p0 h0
      split at h
      · cases h
        exact ⟨hram, hd, hs⟩
      · obtain ⟨hd1, hs1, hram1⟩ := main_iteration_timers _ _ _ _ _ h
        refine ⟨hram1.trans hram, ?_, ?_⟩
        · intro hno
          rcases hd1 with hd1 | ⟨X, hX, hw, _⟩
          · exact hd1.trans (hd hno)
          · exact absurd (has_word_congr c _ _ _ hram hw) (hno _ X hX)
        · intro hno
          rcases hs1 with hs1 | ⟨X, hX, hw, _⟩
          · exact hs1.trans (hs hno)
          · exact absurd (has_word_congr c _ _ _ hram hw) (hno _ X hX)

/-- C16 (counterexample): the program `6003 F015 6000 6100 6100 6100 F007` loaded
by `init_chip8` and run for seven iterations of the loop of `main` without events
ends with `delay_timer = 3` and `V0 = 3`: five iterations after `FX15` stored 3,
`FX07` reads 3, not 0. -/
theorem C16_timers_counterexample :
    ∃ c q, main_loop (fun _ => 0) default_config (fun _ => []) 7
        (loaded chip8_zero
          [0x60, 0x03, 0xF0, 0x15, 0x60, 0x00, 0x61, 0x00, 0x61, 0x00, 0x61, 0x00,
           0xF0, 0x07]) [] = .ok (c, q) ∧
      c.delay_timer = 3 ∧ c.V 0 = 3 := by
  obtain ⟨p, h1, h2⟩ := exists_ok_of_map
    (main_loop (fun _ => 0) default_config (fun _ => []) 7
        (loaded chip8_zero
          [0x60, 0x03, 0xF0, 0x15, 0x60, 0x00, 0x61, 0x00, 0x61, 0x00, 0x61, 0x00,
           0xF0, 0x07]) [])
    (fun p => (p.1.delay_timer, p.1.V 0)) (3, 3) (by decide)
  simp only [Prod.mk.injEq] at h2
  exact ⟨p.1, p.2, h1, h2.1, h2.2⟩

/-- C16 (amended): the timers do not count down. In one iteration of the loop of
`main` each timer keeps its value unless the instruction executed is `FX15`
(`delay_timer = VX`), respectively `FX18` (`sound_timer = VX`); when the RAM holds
no word `FX15` (no word `FX18`), `delay_timer` (`sound_timer`) has its starting
value after any number of iterations. -/
theorem C16_timers_never_tick :
    (∀ (r : Nat) (cfg : config_t) (c : chip8_t) (q : List SDL_Event)
      (p : chip8_t × List SDL_Event), main_iteration r cfg c q = .ok p →
      (p.1.delay_timer = c.delay_timer ∨
        ∃ X, X < 16 ∧ has_word c c.pc (0xF015 + X * 256) ∧ p.1.delay_timer = c.V X) ∧
      (p.1.sound_timer = c.sound_timer ∨
        ∃ X, X < 16 ∧ has_word c c.pc (0xF018 + X * 256) ∧ p.1.sound_timer = c.V X)) ∧
    (∀ (rv : Nat → Nat) (cfg : config_t) (arr : Nat → List SDL_Event) (c : chip8_t)
      (q : List SDL_Event) (n : Nat) (p : chip8_t × List SDL_Event),
      main_loop rv cfg arr n c q = .ok p →
      ((∀ a X, X < 16 → ¬ has_word c a (0xF015 + X * 256)) →
        p.1.delay_timer = c.delay_timer) ∧
      ((∀ a X, X < 16 → ¬ has_word c a (0xF018 + X * 256)) →
        p.1.sound_timer = c.sound_timer)) := by
  constructor
  · intro r cfg c q p h
    obtain ⟨h1, h2, _⟩ := main_iteration_timers r cfg c q p h
    exact ⟨h1, h2⟩
  · intro rv cfg arr c q n p h
    exact (main_loop_timers rv cfg arr c q n p h).2


theorem machine_timers_no_timer_word (a X : Nat) (w0 : Nat) (hw0 : 0xF000 ≤ w0) :
    ¬ has_word machine_timers a (w0 + X * 256) := by
  intro h
  have h2 := (fetch_ok h).2
  have hle : ∀ b, machine_timers.ram b ≤ 0x61 := by
    intro b
    show (if b = 0x200 then 0x61 else if b = 0x201 then 0x00 else 0) ≤ 0x61
    split
    · exact Nat.le_refl _
    · split <;> omega
  have e : (machine_timers.ram a <<< 8) ||| machine_timers.ram (a + 1) =
      machine_timers.ram a * 256 + machine_timers.ram (a + 1) :=
    shl8_or _ _ (by have := hle (a + 1); omega)
  have h3 : w0 + X * 256 =
      (machine_timers.ram a * 256 + machine_timers.ram (a + 1)) % 65536 := by
    rw [← e]
    exact h2
  have := hle a
  have := hle (a + 1)
  omega

/-- Witness of C16: ten iterations from `delay_timer = 7`, `sound_timer = 9` on
a RAM without `FX15` and `FX18` leave `delay_timer = 7`, `sound_timer = 9`. -/
theorem C16_timers_never_tick_witness :
    ∃ c q, main_loop (fun _ => 0) default_config (fun _ => []) 10 machine_timers [] =
        .ok (c, q) ∧ c.delay_timer = 7 ∧ c.sound_timer = 9 := by
  obtain ⟨p, h, _⟩ := exists_ok_of_map
    (main_loop (fun _ => 0) default_config (fun _ => []) 10 machine_timers [])
    (fun _ => ()) () (by decide)
  obtain ⟨hd, hs⟩ := C16_timers_never_tick.2 (fun _ => 0) default_config (fun _ => [])
    machine_timers [] 10 p h
  exact ⟨p.1, p.2, h,
    hd (fun a X _ => machine_timers_no_timer_word a X 0xF015 (by decide)),
    hs (fun a X _ => machine_timers_no_timer_word a X 0xF018 (by decide))⟩

/-! ## C17: loading -/

theorem font_length : font.length = 80 := by decide

theorem init_chip8_too_large (c : chip8_t) (bytes : List Nat) (h : bytes.length > 3584) :
    init_chip8 c (some bytes) = .error .rom_too_large := by
  have h2 : bytes.length > 4096 - 512 := by omega
  unfold init_chip8 RAM_SIZE
  dsimp only
  rw [if_pos h2]

theorem init_chip8_empty (c : chip8_t) (bytes : List Nat) (h : bytes.length = 0) :
    init_chip8 c (some bytes) = .error .rom_not_read := by
  have h2 : ¬ bytes.length > 4096 - 512 := by omega
  unfold init_chip8 RAM_SIZE
  dsimp only
  rw [if_neg h2, if_pos h]

theorem loaded_ram_font (c : chip8_t) (bytes : List Nat) (a : Nat) (h : a < 80) :
    (loaded c bytes).ram a = font.getD a 0 := by
  have h1 : ¬ (0x200 ≤ a ∧ a < 0x200 + bytes.length) := by omega
  have h2 : 0 ≤ a ∧ a < 0 + font.length := by rw [font_length]; omega
  show memcpy (memcpy c.ram 0 font) 0x200 bytes a = _
  unfold memcpy
  rw [if_neg h1, if_pos h2, Nat.sub_zero]

/-- C17 (counterexample): an empty program image does not load: with
`rom_size = 0` the call `fread(.., 0, 1, rom)` returns 0, not 1, and `init_chip8`
leaves with `exit(1)`. -/
theorem C17_empty_image_counterexample :
    init_chip8 chip8_zero (some []) = .error .rom_not_read ∧
    ¬ ∃ s0, init_chip8 chip8_zero (some []) = .ok s0 := by
  have h : init_chip8 chip8_zero (some []) = .error .rom_not_read :=
    init_chip8_empty chip8_zero [] rfl
  refine ⟨h, ?_⟩
  rintro ⟨s0, h0⟩
  rw [h] at h0
  cases h0

/-- C17 (amended): `init_chip8` on a program image of `n` bytes exits before any
instruction runs if `n > 3584` and also if `n = 0`; for every `1 <= n <= 3584` it
succeeds with `ram[0..79]` equal to the font table (glyph `d` at
`ram[5d..5d+4]`), `ram[0x200 + i] = program[i]` for every `i < n`, `pc = 0x200`,
an empty call stack and run state `RUNNING`. -/
theorem C17_load_image (c : chip8_t) (bytes : List Nat) :
    (bytes.length > 3584 → init_chip8 c (some bytes) = .error .rom_too_large) ∧
    (bytes.length = 0 → init_chip8 c (some bytes) = .error .rom_not_read) ∧
    (0 < bytes.length → bytes.length ≤ 3584 →
      ∃ s0, init_chip8 c (some bytes) = .ok s0 ∧
        (∀ a, a < 80 → s0.ram a = font.getD a 0) ∧
        (∀ d k, d < 16 → k < 5 → s0.ram (5 * d + k) = font.getD (5 * d + k) 0) ∧
        (∀ i, i < bytes.length → s0.ram (0x200 + i) = bytes.getD i 0) ∧
        s0.pc = 0x200 ∧ s0.stack_ptr = 0 ∧ s0.state = .RUNNING) := by
  refine ⟨init_chip8_too_large c bytes, init_chip8_empty c bytes, ?_⟩
  intro h0 h1
  refine ⟨loaded c bytes, init_chip8_ok c bytes h0 h1, loaded_ram_font c bytes, ?_,
    loaded_ram_rom c bytes, rfl, rfl, rfl⟩
  intro d k hd hk
  exact loaded_ram_font c bytes _ (by omega)

/-- Witness of C17: an image of 3585 bytes is refused; the image `60 05` loads
with the font in `ram[0..79]`, the program at `0x200`, `pc = 0x200`, an empty
stack and run state `RUNNING`. -/
theorem C17_load_image_witness :
    init_chip8 chip8_zero (some (List.replicate 3585 0)) = .error .rom_too_large ∧
    (∃ s0, init_chip8 chip8_zero (some [0x60, 0x05]) = .ok s0 ∧
      s0.ram 0 = 0xF0 ∧ s0.ram 79 = 0x80 ∧ s0.ram 0x200 = 0x60 ∧ s0.ram 0x201 = 0x05 ∧
      s0.pc = 0x200 ∧ s0.stack_ptr = 0 ∧ s0.state = .RUNNING) := by
  constructor
  · exact (C17_load_image chip8_zero (List.replicate 3585 0)).1
      (by rw [List.length_replicate]; omega)
  · obtain ⟨s0, h, hfont, _, hrom, hp, hs, hr⟩ :=
      (C17_load_image chip8_zero [0x60, 0x05]).2.2 (by decide) (by decide)
    exact ⟨s0, h, hfont 0 (by decide), hfont 79 (by decide), hrom 0 (by decide),
      hrom 1 (by decide), hp, hs, hr⟩

/-! ## C18: RAM reads are not bounds-checked -/

theorem execute_1 (r : Nat) (cfg : config_t) (c : chip8_t) (h : c.instr.opcode >>> 12 = 1) :
    execute r cfg c = .ok { c with pc := c.instr.NNN } := by
  unfold execute
  rw [h]

theorem execute_B (r : Nat) (cfg : config_t) (c : chip8_t) (h : c.instr.opcode >>> 12 = 0xB) :
    execute r cfg c = .ok { c with pc := (c.V 0 + c.instr.NNN) % 65536 } := by
  unfold execute
  rw [h]

/-- First sprite row outside the RAM. -/
theorem draw_rows_ram_outside (cfg : config_t) (x0 n i y : Nat) (c : chip8_t)
    (h : 4096 ≤ c.I + i) :
    draw_rows cfg x0 (n + 1) i y c = .error (.ram_index (c.I + i)) := by
  rw [draw_rows, if_neg (by unfold RAM_SIZE; omega)]

/-- C18 (amended): `emulate_instr` does not bounds-check its RAM reads and has no
fatal outcome. The fetch stays inside the RAM exactly when `pc + 1 <= 4095`; with
`pc >= 4095` it reads at an address `>= 4096`, outside the array. `1NNN` sets
`pc = NNN` and `BNNN` sets `pc = V0 + NNN` without any check or reduction modulo
4096. On the 64x32 display `DXYN` with `N >= 1` and `I >= 4096` reads `ram[I]`
outside the array, and with `I = 0x0FFF`, `N >= 2` (first row inside the display)
it reads `ram[4096]`. No defined step changes the run state. -/
theorem C18_ram_reads_unchecked :
    (∀ (r : Nat) (cfg : config_t) (s : chip8_t), 4096 ≤ s.pc + 1 →
      emulate_instr r cfg s =
        .error (.ram_index (if s.pc < 4096 then s.pc + 1 else s.pc))) ∧
    (∀ (s : chip8_t), s.pc + 1 < 4096 → ∃ w, fetch s = .ok w) ∧
    (∀ (r : Nat) (cfg : config_t) (s : chip8_t) (NNN : Nat), NNN < 4096 →
      fetch s = .ok (0x1000 + NNN) →
      ∃ s1, emulate_instr r cfg s = .ok s1 ∧ s1.pc = NNN) ∧
    (∀ (r : Nat) (cfg : config_t) (s : chip8_t) (NNN : Nat), NNN < 4096 →
      fetch s = .ok (0xB000 + NNN) →
      ∃ s1, emulate_instr r cfg s = .ok s1 ∧ s1.pc = (s.V 0 + NNN) % 65536) ∧
    (∀ (r : Nat) (cfg : config_t) (s : chip8_t) (X Y N : Nat),
      cfg.window_width = 64 → cfg.window_height = 32 → X < 16 → Y < 16 → N < 16 →
      fetch s = .ok (op_DXYN X Y N) →
      (1 ≤ N → 4096 ≤ s.I → emulate_instr r cfg s = .error (.ram_index s.I)) ∧
      (2 ≤ N → s.I = 0xFFF → s.V X % 64 + 8 ≤ 64 → s.V Y % 32 + 2 ≤ 32 →
        emulate_instr r cfg s = .error (.ram_index 4096))) ∧
    (∀ (r : Nat) (cfg : config_t) (s s1 : chip8_t),
      emulate_instr r cfg s = .ok s1 → s1.state = s.state) := by
  refine ⟨?_, fetch_inside, ?_, ?_, ?_, emulate_instr_state⟩
  · intro r cfg s h
    exact emulate_instr_fetch_error r cfg s _ (fetch_outside s h)
  · intro r cfg s NNN hN hf
    rw [emulate_instr_fetched r cfg hf, execute_1 _ _ _ (by rw [fetched_top]; omega)]
    refine ⟨_, rfl, ?_⟩
    show (fetched s (0x1000 + NNN)).instr.NNN = NNN
    rw [fetched_NNN]
    omega
  · intro r cfg s NNN hN hf
    rw [emulate_instr_fetched r cfg hf, execute_B _ _ _ (by rw [fetched_top]; omega)]
    refine ⟨_, rfl, ?_⟩
    show (s.V 0 + (fetched s (0xB000 + NNN)).instr.NNN) % 65536 = _
    rw [fetched_NNN]
    have : (0xB000 + NNN) % 4096 = NNN := by omega
    rw [this]
  · intro r cfg s X Y N hw hh hX hY hN hf
    obtain ⟨htop, h1, h2, h3⟩ := decode_DXYN X Y N hX hY hN
    have hc : ∃ c : chip8_t, emulate_instr r cfg s = execute r cfg c ∧
        c.instr.opcode >>> 12 = 0xD ∧ c.instr.X = X ∧ c.instr.Y = Y ∧ c.instr.N = N ∧
        c.V = s.V ∧ c.I = s.I :=
      ⟨_, emulate_instr_of_fetch r cfg hf, htop, h1, h2, h3, rfl, rfl⟩
    obtain ⟨c, hstep, hctop, hcX, hcY, hcN, hcV, hcI⟩ := hc
    rw [execute_D r cfg c hctop, draw_64x32 cfg hw hh c, hcX, hcY, hcN, hcV] at hstep
    have hc0 : ∃ c0 : chip8_t, c0 = ({ c with V := store s.V 0x0F 0 } : chip8_t) ∧
        c0.I = s.I := ⟨_, rfl, hcI⟩
    obtain ⟨c0, hc0, hI0⟩ := hc0
    rw [← hc0] at hstep
    constructor
    · intro hN1 hI
      obtain ⟨n, rfl⟩ : ∃ n, N = n + 1 := ⟨N - 1, by omega⟩
      rw [hstep, draw_rows_ram_outside cfg _ n 0 _ c0 (by rw [hI0]; omega), hI0, Nat.add_zero]
    · intro hN2 hI hx hy
      obtain ⟨n, rfl⟩ : ∃ n, N = n + 2 := ⟨N - 2, by omega⟩
      obtain ⟨c1, hrun1, _⟩ :=
        draw_bits_spec cfg hw (c0.ram (c0.I + 0)) (s.V Y % 32) (by omega) 8 (s.V X % 64) c0 hx
      obtain ⟨_, _, _, _, hI1⟩ := draw_bits_frame cfg _ _ _ _ _ _ hrun1
      rw [hstep, draw_rows_succ cfg hh _ (n + 1) 0 _ c0 (by omega) (by rw [hI0, hI]; decide),
        hrun1]
      dsimp only
      rw [draw_rows_ram_outside cfg _ n (0 + 1) _ c1 (by rw [hI1, hI0, hI]), hI1, hI0, hI]


/-- C18 (counterexample), on programs loaded by `init_chip8`: after `1FFF` the fetch
at `pc = 0x0FFF` reads `ram[4096]`; after `60FF BFFF` the fetch at
`pc = V0 + NNN = 0x10FE` reads `ram[0x10FE]`; after `AFFF` the sprite rows of
`D012` are read at `ram[0x0FFF]` and `ram[4096]`. None of the runs ends in a
machine whose run state is `QUIT`. -/
theorem C18_ram_bounds_counterexample :
    run (fun _ => 0) default_config 2 (loaded chip8_zero [0x1F, 0xFF]) =
      .error (.ram_index 4096) ∧
    run (fun _ => 0) default_config 3 (loaded chip8_zero [0x60, 0xFF, 0xBF, 0xFF]) =
      .error (.ram_index 0x10FE) ∧
    run (fun _ => 0) default_config 2 (loaded chip8_zero [0xAF, 0xFF, 0xD0, 0x12]) =
      .error (.ram_index 4096) ∧
    (¬ ∃ s1, run (fun _ => 0) default_config 2 (loaded chip8_zero [0x1F, 0xFF]) = .ok s1 ∧
      s1.state = .QUIT) := by
  have h1 : run (fun _ => 0) default_config 2 (loaded chip8_zero [0x1F, 0xFF]) =
      .error (.ram_index 4096) := by rfl
  refine ⟨h1, by rfl, by rfl, ?_⟩
  rintro ⟨s1, h, _⟩
  rw [h1] at h
  cases h

/-- Witness of C18: the fetch at `pc = 0x0FFF` reads `ram[4096]`; `1FFF` sets
`pc = 0x0FFF`; `BFFF` with `V0 = 0xFF` sets `pc = 0x10FE`; `D012` with
`I = 0x0FFF` reads `ram[4096]`. -/
theorem C18_ram_reads_unchecked_witness :
    emulate_instr 0 default_config ({ chip8_zero with pc := 0xFFF } : chip8_t) =
      .error (.ram_index 4096) ∧
    (∃ s1, emulate_instr 0 default_config (machine_word 0x1F 0xFF (fun _ => 0)) = .ok s1 ∧
      s1.pc = 0xFFF) ∧
    (∃ s1, emulate_instr 0 default_config (machine_word 0xBF 0xFF (regs_0F 0xFF 0)) = .ok s1 ∧
      s1.pc = 0x10FE) ∧
    emulate_instr 0 default_config
      (machine_prog [(0x200, 0xD0), (0x201, 0x12)] (fun _ => 0) 0xFFF (fun _ => false)) =
      .error (.ram_index 4096) := by
  refine ⟨?_, ?_, ?_, ?_⟩
  · exact C18_ram_reads_unchecked.1 0 default_config _ (by decide)
  · exact C18_ram_reads_unchecked.2.2.1 0 default_config _ 0xFFF (by decide) rfl
  · obtain ⟨s1, h1, h2⟩ :=
      C18_ram_reads_unchecked.2.2.2.1 0 default_config (machine_word 0xBF 0xFF (regs_0F 0xFF 0))
        0xFFF (by decide) rfl
    exact ⟨s1, h1, h2⟩
  · exact (C18_ram_reads_unchecked.2.2.2.2.1 0 default_config
      (machine_prog [(0x200, 0xD0), (0x201, 0x12)] (fun _ => 0) 0xFFF (fun _ => false))
      0 1 2 rfl rfl (by decide) (by decide) (by decide) rfl).2 (by decide) rfl (by decide)
      (by decide)

/-! ## C19: conditional skips -/

/-- C19: after `3XNN`, `4XNN`, `5XY0`, `9XY0` the program counter is `pc + 4` if
the condition (`VX == NN`, `VX != NN`, `VX == VY`, `VX != VY`) holds and `pc + 2`
otherwise; registers, `I`, timers, stack, display, keypad, RAM and run state are
unchanged. -/
theorem C19_conditional_skips (r : Nat) (cfg : config_t) (s : chip8_t) (X Y NN : Nat)
    (hX : X < 16) (hY : Y < 16) (hNN : NN < 256) :
    (fetch s = .ok (0x3000 + X * 256 + NN) →
      ∃ s1, emulate_instr r cfg s = .ok s1 ∧
        s1.pc = (if s.V X = NN then s.pc + 4 else s.pc + 2) ∧ same_data s s1) ∧
    (fetch s = .ok (0x4000 + X * 256 + NN) →
      ∃ s1, emulate_instr r cfg s = .ok s1 ∧
        s1.pc = (if s.V X ≠ NN then s.pc + 4 else s.pc + 2) ∧ same_data s s1) ∧
    (fetch s = .ok (0x5000 + X * 256 + Y * 16) →
      ∃ s1, emulate_instr r cfg s = .ok s1 ∧
        s1.pc = (if s.V X = s.V Y then s.pc + 4 else s.pc + 2) ∧ same_data s s1) ∧
    (fetch s = .ok (0x9000 + X * 256 + Y * 16) →
      ∃ s1, emulate_instr r cfg s = .ok s1 ∧
        s1.pc = (if s.V X ≠ s.V Y then s.pc + 4 else s.pc + 2) ∧ same_data s s1) := by
  refine ⟨?_, ?_, ?_, ?_⟩
  · intro hf
    have hpc := (fetch_ok hf).1
    have hx : (decode (0x3000 + X * 256 + NN)).X = X := by rw [decode_X]; omega
    have hn : (decode (0x3000 + X * 256 + NN)).NN = NN := by rw [decode_NN]; omega
    have hc : (fetched s (0x3000 + X * 256 + NN)).V
        (fetched s (0x3000 + X * 256 + NN)).instr.X =
        (fetched s (0x3000 + X * 256 + NN)).instr.NN ↔ s.V X = NN := by
      show s.V (decode _).X = (decode _).NN ↔ _
      rw [hx, hn]
    rw [emulate_instr_fetched r cfg hf, execute_3 _ _ _ (by rw [fetched_top]; omega)]
    by_cases h : s.V X = NN
    · rw [if_pos (hc.2 h), if_pos h]
      exact skip_result s _ hpc
    · rw [if_neg (fun h' => h (hc.1 h')), if_neg h]
      exact noskip_result s _
  · intro hf
    have hpc := (fetch_ok hf).1
    have hx : (decode (0x4000 + X * 256 + NN)).X = X := by rw [decode_X]; omega
    have hn : (decode (0x4000 + X * 256 + NN)).NN = NN := by rw [decode_NN]; omega
    have hc : (fetched s (0x4000 + X * 256 + NN)).V
        (fetched s (0x4000 + X * 256 + NN)).instr.X ≠
        (fetched s (0x4000 + X * 256 + NN)).instr.NN ↔ s.V X ≠ NN := by
      show s.V (decode _).X ≠ (decode _).NN ↔ _
      rw [hx, hn]
    rw [emulate_instr_fetched r cfg hf, execute_4 _ _ _ (by rw [fetched_top]; omega)]
    by_cases h : s.V X ≠ NN
    · rw [if_pos (hc.2 h), if_pos h]
      exact skip_result s _ hpc
    · rw [if_neg (fun h' => h (hc.1 h')), if_neg h]
      exact noskip_result s _
  · intro hf
    have hpc := (fetch_ok hf).1
    have hx : (decode (0x5000 + X * 256 + Y * 16)).X = X := by rw [decode_X]; omega
    have hy : (decode (0x5000 + X * 256 + Y * 16)).Y = Y := by rw [decode_Y]; omega
    have hn : (decode (0x5000 + X * 256 + Y * 16)).N = 0 := by rw [decode_N]; omega
    have hc : (fetched s (0x5000 + X * 256 + Y * 16)).V
        (fetched s (0x5000 + X * 256 + Y * 16)).instr.X =
        (fetched s (0x5000 + X * 256 + Y * 16)).V
        (fetched s (0x5000 + X * 256 + Y * 16)).instr.Y ↔ s.V X = s.V Y := by
      show s.V (decode _).X = s.V (decode _).Y ↔ _
      rw [hx, hy]
    have hn' : ¬ (fetched s (0x5000 + X * 256 + Y * 16)).instr.N ≠ 0 := fun h => h hn
    rw [emulate_instr_fetched r cfg hf, execute_5 _ _ _ (by rw [fetched_top]; omega),
      if_neg hn']
    by_cases h : s.V X = s.V Y
    · rw [if_pos (hc.2 h), if_pos h]
      exact skip_result s _ hpc
    · rw [if_neg (fun h' => h (hc.1 h')), if_neg h]
      exact noskip_result s _
  · intro hf
    have hpc := (fetch_ok hf).1
    have hx : (decode (0x9000 + X * 256 + Y * 16)).X = X := by rw [decode_X]; omega
    have hy : (decode (0x9000 + X * 256 + Y * 16)).Y = Y := by rw [decode_Y]; omega
    have hn : (decode (0x9000 + X * 256 + Y * 16)).N = 0 := by rw [decode_N]; omega
    have hc : (fetched s (0x9000 + X * 256 + Y * 16)).V
        (fetched s (0x9000 + X * 256 + Y * 16)).instr.X ≠
        (fetched s (0x9000 + X * 256 + Y * 16)).V
        (fetched s (0x9000 + X * 256 + Y * 16)).instr.Y ↔ s.V X ≠ s.V Y := by
      show s.V (decode _).X ≠ s.V (decode _).Y ↔ _
      rw [hx, hy]
    have hn' : ¬ (fetched s (0x9000 + X * 256 + Y * 16)).instr.N ≠ 0 := fun h => h hn
    rw [emulate_instr_fetched r cfg hf, execute_9 _ _ _ (by rw [fetched_top]; omega)]
    unfold case_0x09
    rw [if_neg hn']
    by_cases h : s.V X ≠ s.V Y
    · rw [if_pos (hc.2 h), if_pos h]
      exact skip_result s _ hpc
    · rw [if_neg (fun h' => h (hc.1 h')), if_neg h]
      exact noskip_result s _


/-- Witness of C19: with `V0 = 5`, `V1 = 0`, the words `3005` and `9010` skip
(`pc = 0x204`), `4005` and `5010` do not (`pc = 0x202`). -/
theorem C19_conditional_skips_witness :
    (∃ s1, emulate_instr 0 default_config (machine_word 0x30 0x05 (regs_0F 5 0)) = .ok s1 ∧
      s1.pc = 0x204) ∧
    (∃ s1, emulate_instr 0 default_config (machine_word 0x40 0x05 (regs_0F 5 0)) = .ok s1 ∧
      s1.pc = 0x202) ∧
    (∃ s1, emulate_instr 0 default_config (machine_word 0x50 0x10 (regs_0F 5 0)) = .ok s1 ∧
      s1.pc = 0x202) ∧
    (∃ s1, emulate_instr 0 default_config (machine_word 0x90 0x10 (regs_0F 5 0)) = .ok s1 ∧
      s1.pc = 0x204) := by
  refine ⟨?_, ?_, ?_, ?_⟩
  · obtain ⟨s1, h, hp, _⟩ := (C19_conditional_skips 0 default_config
      (machine_word 0x30 0x05 (regs_0F 5 0)) 0 1 5 (by decide) (by decide) (by decide)).1 rfl
    exact ⟨s1, h, hp.trans (by decide)⟩
  · obtain ⟨s1, h, hp, _⟩ := (C19_conditional_skips 0 default_config
      (machine_word 0x40 0x05 (regs_0F 5 0)) 0 1 5 (by decide) (by decide) (by decide)).2.1 rfl
    exact ⟨s1, h, hp.trans (by decide)⟩
  · obtain ⟨s1, h, hp, _⟩ := (C19_conditional_skips 0 default_config
      (machine_word 0x50 0x10 (regs_0F 5 0)) 0 1 5 (by decide) (by decide) (by decide)).2.2.1 rfl
    exact ⟨s1, h, hp.trans (by decide)⟩
  · obtain ⟨s1, h, hp, _⟩ := (C19_conditional_skips 0 default_config
      (machine_word 0x90 0x10 (regs_0F 5 0)) 0 1 5 (by decide) (by decide) (by decide)).2.2.2 rfl
    exact ⟨s1, h, hp.trans (by decide)⟩

/-! ## C20: the flag when `VF` is the destination -/

/-- Flag of the five flag-setting instructions for `X != 0xF`, whatever `Y`: the
flag is computed from the operands before the instruction. -/
theorem flag_when_X_ne_F (r : Nat) (cfg : config_t) (s : chip8_t) (X Y : Nat)
    (hX : X < 15) (hY : Y < 16) :
    (fetch s = .ok (op_8XYN X Y 4) →
      ∃ s1, emulate_instr r cfg s = .ok s1 ∧
        s1.V 0xF = (if s.V X + s.V Y > 255 then 1 else 0)) ∧
    (fetch s = .ok (op_8XYN X Y 5) →
      ∃ s1, emulate_instr r cfg s = .ok s1 ∧ s1.V 0xF = (if s.V Y > s.V X then 0 else 1)) ∧
    (fetch s = .ok (op_8XYN X Y 6) →
      ∃ s1, emulate_instr r cfg s = .ok s1 ∧ s1.V 0xF = s.V X % 2) ∧
    (fetch s = .ok (op_8XYN X Y 7) →
      ∃ s1, emulate_instr r cfg s = .ok s1 ∧ s1.V 0xF = (if s.V X > s.V Y then 0 else 1)) ∧
    (fetch s = .ok (op_8XYN X Y 0xE) →
      ∃ s1, emulate_instr r cfg s = .ok s1 ∧ s1.V 0xF = s.V X / 128 % 2) := by
  have hXF : (0xF : Nat) ≠ X := by omega
  refine ⟨?_, ?_, ?_, ?_, ?_⟩
  · intro hf
    obtain ⟨h1, h2, h3⟩ := fetched_8XYN s X Y 4 (by omega) hY (by decide)
    have hN : (fetched s (op_8XYN X Y 4)).instr.N ≠ 0 := by rw [h3]; decide
    refine ⟨_, step_8XYN r cfg s X Y 4 (by omega) hY (by decide) hf, ?_⟩
    rw [case_0x09_alu _ hN, alu_4 _ X Y h1 h2 h3, store_other _ _ _ _ hXF, store_same]
    rfl
  · intro hf
    obtain ⟨h1, h2, h3⟩ := fetched_8XYN s X Y 5 (by omega) hY (by decide)
    have hN : (fetched s (op_8XYN X Y 5)).instr.N ≠ 0 := by rw [h3]; decide
    refine ⟨_, step_8XYN r cfg s X Y 5 (by omega) hY (by decide) hf, ?_⟩
    rw [case_0x09_alu _ hN, alu_5 _ X Y h1 h2 h3, store_other _ _ _ _ hXF, store_same]
    rfl
  · intro hf
    obtain ⟨h1, _, h3⟩ := fetched_8XYN s X Y 6 (by omega) hY (by decide)
    have hN : (fetched s (op_8XYN X Y 6)).instr.N ≠ 0 := by rw [h3]; decide
    refine ⟨_, step_8XYN r cfg s X Y 6 (by omega) hY (by decide) hf, ?_⟩
    rw [case_0x09_alu _ hN, alu_6 _ X h1 h3, store_other _ _ _ _ hXF, store_same,
      Nat.and_one_is_mod]
    rfl
  · intro hf
    obtain ⟨h1, h2, h3⟩ := fetched_8XYN s X Y 7 (by omega) hY (by decide)
    have hN : (fetched s (op_8XYN X Y 7)).instr.N ≠ 0 := by rw [h3]; decide
    refine ⟨_, step_8XYN r cfg s X Y 7 (by omega) hY (by decide) hf, ?_⟩
    rw [case_0x09_alu _ hN, alu_7 _ X Y h1 h2 h3, store_other _ _ _ _ hXF, store_same]
    rfl
  · intro hf
    obtain ⟨h1, _, h3⟩ := fetched_8XYN s X Y 0xE (by omega) hY (by decide)
    have hN : (fetched s (op_8XYN X Y 0xE)).instr.N ≠ 0 := by rw [h3]; decide
    refine ⟨_, step_8XYN r cfg s X Y 0xE (by omega) hY (by decide) hf, ?_⟩
    rw [case_0x09_alu _ hN, alu_E _ X h1 h3, store_other _ _ _ _ hXF, store_same, bit7]
    rfl

/-- C20 (code at the failing inputs): with `X = 0xF` the result is stored into
`VF` after the flag. `8F14` with `VF = 0x10`, `V1 = 0x20` leaves `VF = 0x20` (no
carry: the flag is 0); `8F15` leaves `VF = 0xE0` (borrow: the flag is 0); `8F16`
with `VF = 7` leaves `VF = 0` (low bit 1); `8F17` leaves `VF = 0x1F` (no borrow:
the flag is 1); `8F1E` with `VF = 0x81` leaves `VF = 2` (bit 7 is 1). -/
theorem C20_flag_overwritten_when_X_is_F :
    (∃ s1, emulate_instr 0 default_config (machine_word 0x8F 0x14 (regs_1F 0x20 0x10)) = .ok s1 ∧
      s1.V 0xF = 0x20 ∧ ¬ (regs_1F 0x20 0x10 0xF + regs_1F 0x20 0x10 1 > 255)) ∧
    (∃ s1, emulate_instr 0 default_config (machine_word 0x8F 0x15 (regs_1F 0x20 0x10)) = .ok s1 ∧
      s1.V 0xF = 0xE0 ∧ regs_1F 0x20 0x10 1 > regs_1F 0x20 0x10 0xF) ∧
    (∃ s1, emulate_instr 0 default_config (machine_word 0x8F 0x16 (regs_1F 0 0x07)) = .ok s1 ∧
      s1.V 0xF = 0 ∧ regs_1F 0 0x07 0xF % 2 = 1) ∧
    (∃ s1, emulate_instr 0 default_config (machine_word 0x8F 0x17 (regs_1F 0x20 0x10)) = .ok s1 ∧
      s1.V 0xF = 0x1F ∧ ¬ (regs_1F 0x20 0x10 0xF > regs_1F 0x20 0x10 1)) ∧
    (∃ s1, emulate_instr 0 default_config (machine_word 0x8F 0x1E (regs_1F 0 0x81)) = .ok s1 ∧
      s1.V 0xF = 2 ∧ regs_1F 0 0x81 0xF / 128 % 2 = 1) := by
  refine ⟨?_, ?_, ?_, ?_, ?_⟩
  · obtain ⟨s1, h1, h2⟩ := exists_ok_of_map
      (emulate_instr 0 default_config (machine_word 0x8F 0x14 (regs_1F 0x20 0x10)))
      (fun s => s.V 0xF) 0x20 (by decide)
    exact ⟨s1, h1, h2, by decide⟩
  · obtain ⟨s1, h1, h2⟩ := exists_ok_of_map
      (emulate_instr 0 default_config (machine_word 0x8F 0x15 (regs_1F 0x20 0x10)))
      (fun s => s.V 0xF) 0xE0 (by decide)
    exact ⟨s1, h1, h2, by decide⟩
  · obtain ⟨s1, h1, h2⟩ := exists_ok_of_map
      (emulate_instr 0 default_config (machine_word 0x8F 0x16 (regs_1F 0 0x07)))
      (fun s => s.V 0xF) 0 (by decide)
    exact ⟨s1, h1, h2, by decide⟩
  · obtain ⟨s1, h1, h2⟩ := exists_ok_of_map
      (emulate_instr 0 default_config (machine_word 0x8F 0x17 (regs_1F 0x20 0x10)))
      (fun s => s.V 0xF) 0x1F (by decide)
    exact ⟨s1, h1, h2, by decide⟩
  · obtain ⟨s1, h1, h2⟩ := exists_ok_of_map
      (emulate_instr 0 default_config (machine_word 0x8F 0x1E (regs_1F 0 0x81)))
      (fun s => s.V 0xF) 2 (by decide)
    exact ⟨s1, h1, h2, by decide⟩

/-! ## C21: writes of the display -/

theorem case_0x09_display (c : chip8_t) : (case_0x09 c).display = c.display := by
  unfold case_0x09
  split
  · rfl
  · split <;> rfl

theorem alu_display (c : chip8_t) : (alu c).display = c.display := by
  unfold alu
  split <;> rfl

theorem wait_key_display : ∀ (n i : Nat) (c : chip8_t),
    (wait_key n i c).1.display = c.display := by
  intro n
  induction n with
  | zero => intro i c; rfl
  | succ n ih =>
    intro i c
    simp only [wait_key]
    split
    · rfl
    · exact ih _ _

/-- The display after the switch: it is written by `case 0x0D` and by the
`NN == 0xE0` branch of `case 0x00` only. -/
theorem execute_display (r : Nat) (cfg : config_t) (c c1 : chip8_t)
    (h : execute r cfg c = .ok c1) (hD : c.instr.opcode >>> 12 ≠ 0xD)
    (hE0 : ¬ (c.instr.opcode >>> 12 = 0 ∧ c.instr.NN = 0xE0)) :
    c1.display = c.display := by
  unfold execute at h
  split at h
  case h_1 =>
    rename_i htop
    split at h
    · rename_i hNN
      exact absurd ⟨htop, hNN⟩ hE0
    · repeat' split at h
      all_goals first
        | (cases h; done)
        | (cases h; rfl)
  case h_9 =>
    cases h
    exact (case_0x09_display (alu c)).trans (alu_display c)
  case h_10 =>
    cases h
    exact case_0x09_display c
  case h_14 =>
    rename_i htop
    exact absurd htop hD
  case h_16 =>
    have hw := wait_key_display KEYPAD_SIZE 0 c
    repeat' split at h
    all_goals first
      | (cases h; rfl)
      | (cases h; exact hw)
  all_goals repeat' split at h
  all_goals first
    | (cases h; done)
    | (cases h; rfl)

/-- Every word other than `DXYN` and `0XE0` leaves the display as it was. -/
theorem display_unchanged (r : Nat) (cfg : config_t) (s s1 : chip8_t) (w : Nat)
    (hf : fetch s = .ok w) (h : emulate_instr r cfg s = .ok s1) (hD : w / 4096 ≠ 0xD)
    (hE0 : ¬ (w / 4096 = 0 ∧ w % 256 = 0xE0)) : s1.display = s.display := by
  rw [emulate_instr_fetched r cfg hf] at h
  exact execute_display r cfg (fetched s w) s1 h (by rw [fetched_top]; exact hD)
    (by rw [fetched_top, fetched_NN]; exact hE0)

/-- One step of `00E0`: every pixel is cleared, `pc` advances by 2, and registers,
`I`, timers, stack, keypad, RAM and run state are unchanged. -/
theorem step_00E0 (r : Nat) (cfg : config_t) (s : chip8_t) (hf : fetch s = .ok 0x00E0) :
    ∃ s1, emulate_instr r cfg s = .ok s1 ∧ (∀ p, s1.display p = false) ∧
      s1.pc = s.pc + 2 ∧ s1.V = s.V ∧ s1.I = s.I ∧ s1.delay_timer = s.delay_timer ∧
      s1.sound_timer = s.sound_timer ∧ s1.stack = s.stack ∧ s1.stack_ptr = s.stack_ptr ∧
      s1.keypad = s.keypad ∧ s1.ram = s.ram ∧ s1.state = s.state := by
  rw [emulate_instr_fetched r cfg hf,
    execute_0_clear r cfg _ (by rw [fetched_top]) (by rw [fetched_NN])]
  exact ⟨_, rfl, fun _ => rfl, rfl, rfl, rfl, rfl, rfl, rfl, rfl, rfl, rfl, rfl⟩

/-- C21 (code at the failing input): the word `0AE0`, which is neither `00E0` nor
`DXYN`, clears the display: pixel 100 is set before the step and clear after
it. -/
theorem C21_display_cleared_by_0AE0 :
    fetch machine_0AE0 = .ok 0x0AE0 ∧ machine_0AE0.display 100 = true ∧
    ∃ s1, emulate_instr 0 default_config machine_0AE0 = .ok s1 ∧ s1.display 100 = false := by
  refine ⟨rfl, rfl, ?_⟩
  obtain ⟨s1, h1, h2⟩ := exists_ok_of_map
    (emulate_instr 0 default_config machine_0AE0) (fun s => s.display 100) false (by decide)
  exact ⟨s1, h1, h2⟩

end Chip8
